import Mathlib

/-!
# Response emitters of `services/httpd`

A shallow embedding of `services/httpd/emitter.go`: the monolithic `Emitter`,
the `ChunkedEmitter` and `epochConverter`.

Channels are embedded as the finite list of items the producer sends before it
closes the channel: `for x := range ch` walks the list, and a receive
`<-ch` on a drained, closed channel (the `nil` series) is the empty list.
The response writer is embedded as the log of the responses handed to
`WriteResponse`, in call order.  A run-time failure of the Go code (indexing
`row.Values[0]` of a row without values) is embedded as `none` /
`Outcome.panicked`.
-/

namespace httpd

/-! ## Data model -/

/-- A scalar held by an `interface{}` cell of a row.  `time` is a `time.Time`,
given by its count of nanoseconds since the Unix epoch; `float` is given by its
bit pattern, no arithmetic is done on it. -/
inductive Value where
  | time (ns : Int)
  | int (i : Int)
  | float (bits : Nat)
  | str (s : String)
  | bool (b : Bool)
  | null
  deriving DecidableEq, Repr

/-- An `error` value: `none` is Go's `nil`. -/
abbrev Error := Option String

/-- The type `influxql.Message`. -/
structure Message where
  Level : String
  Text : String
  deriving DecidableEq, Repr

/-- The type `influxql.Tags`, by the key/value pairs it holds. -/
structure Tags where
  m : List (String × String)
  deriving DecidableEq, Repr

/-- Modelled from the spec: `influxql.Tags.KeyValues` is not part of the sources
at hand; it hands out the key to value map of the tag set. -/
def Tags.KeyValues (t : Tags) : List (String × String) := t.m

/-- The type `influxql.Row`: one row sent on a series' row channel. -/
structure Row where
  Values : List Value
  Err : Error
  deriving DecidableEq, Repr

/-- The type `influxql.Series`; `RowCh` lists what its row channel delivers. -/
structure Series where
  Name : String
  Tags : Tags
  Columns : List String
  Err : Error
  RowCh : List Row
  deriving DecidableEq, Repr

/-- The type `influxql.ResultSet`; `SeriesCh` lists what its series channel
delivers. -/
structure ResultSet where
  ID : Int
  Messages : List Message
  Err : Error
  SeriesCh : List Series
  deriving DecidableEq, Repr

/-- The type `models.Row`: a rendered series of a result. -/
structure SeriesEntry where
  Name : String
  Tags : List (String × String)
  Columns : List String
  Values : List (List Value)
  Partial : Bool
  deriving DecidableEq, Repr

/-- The type `influxql.Result`. -/
structure Result where
  StatementID : Int
  Series : List SeriesEntry
  Messages : List Message
  Err : Error
  Partial : Bool
  deriving DecidableEq, Repr

/-- The type `Response`. -/
structure Response where
  Results : List Result
  deriving DecidableEq, Repr

/-- The response writer, by the responses written so far (oldest first). -/
structure ResponseWriter where
  written : List Response
  deriving DecidableEq, Repr

/-- The call `w.WriteResponse(resp)`. -/
def ResponseWriter.WriteResponse (w : ResponseWriter) (resp : Response) : ResponseWriter :=
  ⟨w.written ++ [resp]⟩

/-- How a call of `Emit` ends: it returns (always with a `nil` error), or the
goroutine panics; either way `w` is the writer as the call left it. -/
inductive Outcome where
  | returned (w : ResponseWriter)
  | panicked (w : ResponseWriter)
  deriving DecidableEq, Repr

/-- The writer as the call left it. -/
def Outcome.writer : Outcome → ResponseWriter
  | .returned w => w
  | .panicked w => w

/-! ## `epochConverter` -/

/-- Reduction of an integer to the range of `int64` (two's complement). -/
def wrapInt64 (x : Int) : Int := (x + 2 ^ 63) % 2 ^ 64 - 2 ^ 63

/-- The method `time.Time.UnixNano`: nanoseconds since the Unix epoch as an
`int64`. -/
def UnixNano (ns : Int) : Int := wrapInt64 ns

/-- The `switch epoch` of `epochConverter`: the divisor in nanoseconds. -/
def epochDivisor (epoch : String) : Int :=
  if epoch = "u" then 1000
  else if epoch = "ms" then 1000000
  else if epoch = "s" then 1000000000
  else if epoch = "m" then 60000000000
  else if epoch = "h" then 3600000000000
  else 1

/-- The closure returned by `epochConverter(epoch)`, applied to a row:
`none` when `row.Values[0]` is out of range. Go's `/` on `int64` truncates
toward zero. -/
def epochConverter (epoch : String) (row : Row) : Option Row :=
  match row.Values with
  | [] => none
  | Value.time ts :: rest =>
    some { row with Values := Value.int (Int.tdiv (UnixNano ts) (epochDivisor epoch)) :: rest }
  | _ :: _ => some row

/-- The guarded call `if convertToEpoch != nil { convertToEpoch(&row) }`, where
`convertToEpoch` is set only if `Epoch != ""`. -/
def convertToEpoch (epoch : String) (row : Row) : Option Row :=
  if epoch ≠ "" then epochConverter epoch row else some row

/-! ## `Emitter` -/

/-- The type `Emitter`. -/
structure Emitter where
  MaxRowLimit : Int
  Epoch : String
  deriving DecidableEq, Repr

/-- How the loop over the rows of one series ends. -/
inductive RowsExit where
  | drained (s : SeriesEntry)
  | rowErr (err : String)
  | capped (s : SeriesEntry)
  | panic
  deriving DecidableEq, Repr

/-- The loop `for row := range series.RowCh()` of `Emitter.Emit`; `s` is the
series entry being filled and `rows` the local counter of that name. -/
def Emitter.rowLoop (e : Emitter) (rows : Int) (s : SeriesEntry) : List Row → RowsExit
  | [] => .drained s
  | row :: rest =>
    match row.Err with
    | some err => .rowErr err
    | none =>
      match convertToEpoch e.Epoch row with
      | none => .panic
      | some row1 =>
        let s1 : SeriesEntry := { s with Values := s.Values ++ [row1.Values] }
        if e.MaxRowLimit > 0 ∧ rows + (s1.Values.length : Int) ≥ e.MaxRowLimit then
          .capped { s1 with Partial := true }
        else
          Emitter.rowLoop e rows s1 rest

/-- How the loop over the series of one statement ends: `next` is reaching the
next iteration of `RESULTS`, `stop` is `break RESULTS`. -/
inductive SeriesExit where
  | next (r : Result)
  | stop (r : Result)
  | panic
  deriving DecidableEq, Repr

/-- The loop `for series := range result.SeriesCh()` of `Emitter.Emit`; `r` is
the result being filled. -/
def Emitter.seriesLoop (e : Emitter) (rows : Int) (r : Result) : List Series → SeriesExit
  | [] => .next r
  | series :: rest =>
    match series.Err with
    | some err => .next { r with Err := some err }
    | none =>
      let s : SeriesEntry :=
        { Name := series.Name, Tags := series.Tags.KeyValues, Columns := series.Columns,
          Values := [], Partial := false }
      match Emitter.rowLoop e rows s series.RowCh with
      | .drained s1 => Emitter.seriesLoop e rows { r with Series := r.Series ++ [s1] } rest
      | .rowErr err => .next { r with Err := some err, Series := [] }
      | .capped s1 => .stop { r with Series := r.Series ++ [s1] }
      | .panic => .panic

/-- The loop `RESULTS` of `Emitter.Emit`: the response accumulated when the loop
is left, `none` on a panic. -/
def Emitter.resultsLoop (e : Emitter) (rows : Int) (resp : Response) :
    List ResultSet → Option Response
  | [] => some resp
  | result :: rest =>
    let r : Result :=
      { StatementID := result.ID, Messages := result.Messages, Err := result.Err,
        Series := [], Partial := false }
    if r.Err ≠ none then
      Emitter.resultsLoop e rows ⟨resp.Results ++ [r]⟩ rest
    else
      match Emitter.seriesLoop e rows r result.SeriesCh with
      | .next r1 => Emitter.resultsLoop e rows ⟨resp.Results ++ [r1]⟩ rest
      | .stop r1 => some ⟨resp.Results ++ [r1]⟩
      | .panic => none

/-- The method `Emitter.Emit`. -/
def Emitter.Emit (e : Emitter) (w : ResponseWriter) (results : List ResultSet) : Outcome :=
  match Emitter.resultsLoop e 0 ⟨[]⟩ results with
  | some resp => .returned (w.WriteResponse resp)
  | none => .panicked w

/-! ## `ChunkedEmitter` -/

/-- The type `ChunkedEmitter`. -/
structure ChunkedEmitter where
  ChunkSize : Int
  Epoch : String
  deriving DecidableEq, Repr

/-- The state the row loop of `ChunkedEmitter.Emit` works on: the local
variables `messages` and `values`, and the writer. -/
structure ChunkState where
  messages : List Message
  values : List (List Value)
  w : ResponseWriter
  deriving DecidableEq, Repr

/-- The result written when the buffer is flushed inside the row loop. -/
def ChunkedEmitter.flushResult (result : ResultSet) (series : Series) (st : ChunkState) :
    Result :=
  { StatementID := result.ID,
    Series := [{ Name := series.Name, Tags := series.Tags.KeyValues,
                 Columns := series.Columns, Values := st.values, Partial := true }],
    Messages := st.messages, Err := none, Partial := true }

/-- The loop `for row := range series.RowCh()` of `ChunkedEmitter.Emit`:
the state when the channel is drained, or the writer at the panic. -/
def ChunkedEmitter.rowLoop (e : ChunkedEmitter) (result : ResultSet) (series : Series)
    (st : ChunkState) : List Row → Except ResponseWriter ChunkState
  | [] => .ok st
  | row :: rest =>
    match convertToEpoch e.Epoch row with
    | none => .error st.w
    | some row1 =>
      if e.ChunkSize > 0 ∧ (st.values.length : Int) ≥ e.ChunkSize then
        let r := ChunkedEmitter.flushResult result series st
        ChunkedEmitter.rowLoop e result series
          { messages := [], values := [row1.Values], w := st.w.WriteResponse ⟨[r]⟩ } rest
      else
        ChunkedEmitter.rowLoop e result series
          { st with values := st.values ++ [row1.Values] } rest

/-- The result built once the rows of `series` are drained, before `r.Partial`
is decided. -/
def ChunkedEmitter.lastResult (result : ResultSet) (series : Series) (st : ChunkState) :
    Result :=
  { StatementID := result.ID,
    Series := [{ Name := series.Name, Tags := series.Tags.KeyValues,
                 Columns := series.Columns, Values := st.values, Partial := false }],
    Messages := st.messages, Err := none, Partial := false }

/-- The loop `for series != nil` of `ChunkedEmitter.Emit`: the argument list is
the current `series` followed by what the series channel still holds, the
empty list is `series == nil`. -/
def ChunkedEmitter.seriesLoop (e : ChunkedEmitter) (result : ResultSet)
    (messages : List Message) (w : ResponseWriter) : List Series → Outcome
  | [] => .returned w
  | series :: more =>
    match ChunkedEmitter.rowLoop e result series
        { messages := messages, values := [], w := w } series.RowCh with
    | .error w1 => .panicked w1
    | .ok st =>
      let r := ChunkedEmitter.lastResult result series st
      match more with
      | [] => .returned (st.w.WriteResponse ⟨[r]⟩)
      | next :: more1 =>
        ChunkedEmitter.seriesLoop e result st.messages
          (st.w.WriteResponse ⟨[{ r with Partial := true }]⟩) (next :: more1)

/-- The loop `for result := range results` of `ChunkedEmitter.Emit`. -/
def ChunkedEmitter.resultsLoop (e : ChunkedEmitter) (w : ResponseWriter) :
    List ResultSet → Outcome
  | [] => .returned w
  | result :: rest =>
    let messages := result.Messages
    match result.SeriesCh with
    | [] =>
      ChunkedEmitter.resultsLoop e
        (w.WriteResponse ⟨[{ StatementID := result.ID, Series := [], Messages := messages,
                             Err := none, Partial := false }]⟩) rest
    | series :: more =>
      if series.Err ≠ none then
        ChunkedEmitter.resultsLoop e
          (w.WriteResponse ⟨[{ StatementID := result.ID, Series := [], Messages := messages,
                               Err := series.Err, Partial := false }]⟩) rest
      else
        match ChunkedEmitter.seriesLoop e result messages w (series :: more) with
        | .returned w1 => ChunkedEmitter.resultsLoop e w1 rest
        | .panicked w1 => .panicked w1

/-- The method `ChunkedEmitter.Emit`. -/
def ChunkedEmitter.Emit (e : ChunkedEmitter) (w : ResponseWriter) (results : List ResultSet) :
    Outcome :=
  ChunkedEmitter.resultsLoop e w results

/-! ## The scenario of `emitter_test.go` -/

/-- The first series sent by `EmitTestResults`: `cpu`, host `server01`. -/
def testSeries01 : Series :=
  { Name := "cpu", Tags := ⟨[("host", "server01")]⟩, Columns := ["time", "value"],
    Err := none,
    RowCh := [ ⟨[Value.time 0, Value.float 2], none⟩,
               ⟨[Value.time 10000000000, Value.float 5], none⟩,
               ⟨[Value.time 20000000000, Value.float 7], none⟩ ] }

/-- The second series sent by `EmitTestResults`: `cpu`, host `server02`. -/
def testSeries02 : Series :=
  { Name := "cpu", Tags := ⟨[("host", "server02")]⟩, Columns := ["time", "value"],
    Err := none,
    RowCh := [ ⟨[Value.time 0, Value.float 8], none⟩ ] }

/-- The third series sent by `EmitTestResults`: `databases`. -/
def testSeriesDatabases : Series :=
  { Name := "databases", Tags := ⟨[]⟩, Columns := ["name"], Err := none,
    RowCh := [ ⟨[Value.str "db0"], none⟩, ⟨[Value.str "db1"], none⟩ ] }

/-- The first result set sent by `EmitTestResults`. -/
def testStatement0 : ResultSet :=
  { ID := 0, Messages := [], Err := none, SeriesCh := [testSeries01, testSeries02] }

/-- The second result set sent by `EmitTestResults`. -/
def testStatement1 : ResultSet :=
  { ID := 1, Messages := [], Err := none, SeriesCh := [testSeriesDatabases] }

/-- The stream sent by `EmitTestResults`. -/
def EmitTestResults : List ResultSet := [testStatement0, testStatement1]

/-! ## Predicates on the input stream -/

/-- No statement, series or row of the stream carries an error. -/
def ErrorFree (results : List ResultSet) : Prop :=
  ∀ stmt ∈ results, stmt.Err = none ∧
    ∀ ser ∈ stmt.SeriesCh, ser.Err = none ∧ ∀ row ∈ ser.RowCh, row.Err = none

instance (results : List ResultSet) : Decidable (ErrorFree results) := by
  unfold ErrorFree
  infer_instance

/-- The values appended to the output for `row`: those of the converted row. -/
def emittedValues (epoch : String) (row : Row) : List Value :=
  ((convertToEpoch epoch row).getD row).Values

/-- The conversion of `row` does not fail: no epoch is set or the row has a
first value. -/
def Convertible (epoch : String) (row : Row) : Prop :=
  epoch = "" ∨ row.Values ≠ []

instance (epoch : String) (row : Row) : Decidable (Convertible epoch row) := by
  unfold Convertible
  infer_instance

/-- The entry rendered for `series` when it holds `values`. -/
def Series.entry (series : Series) (values : List (List Value)) (flag : Bool) : SeriesEntry :=
  { Name := series.Name, Tags := series.Tags.KeyValues, Columns := series.Columns,
    Values := values, Partial := flag }

/-- The entry of a series rendered in full. -/
def Series.fullEntry (epoch : String) (series : Series) : SeriesEntry :=
  series.entry (series.RowCh.map (emittedValues epoch)) false

/-- A series that the monolithic emitter renders in full: no error on it or on
its rows, no failing conversion, and fewer rows than a positive cap. -/
def Series.Sound (e : Emitter) (ser : Series) : Prop :=
  ser.Err = none ∧ (∀ row ∈ ser.RowCh, row.Err = none ∧ Convertible e.Epoch row) ∧
    ¬ (e.MaxRowLimit > 0 ∧ (ser.RowCh.length : Int) ≥ e.MaxRowLimit)

instance (e : Emitter) (ser : Series) : Decidable (ser.Sound e) := by
  unfold Series.Sound
  infer_instance

/-- The result rendered for a statement whose series are all rendered in full. -/
def ResultSet.fullResult (epoch : String) (stmt : ResultSet) : Result :=
  { StatementID := stmt.ID, Messages := stmt.Messages, Err := none,
    Series := stmt.SeriesCh.map (Series.fullEntry epoch), Partial := false }

/-- No conversion of a row of the stream fails. -/
def NoPanic (epoch : String) (results : List ResultSet) : Prop :=
  ∀ stmt ∈ results, ∀ ser ∈ stmt.SeriesCh, ∀ row ∈ ser.RowCh, Convertible epoch row

instance (epoch : String) (results : List ResultSet) : Decidable (NoPanic epoch results) := by
  unfold NoPanic
  infer_instance

/-- The unit tokens of `epochConverter` with their divisors in nanoseconds. -/
def unitDivisors : List (String × Nat) :=
  [("u", 10 ^ 3), ("ms", 10 ^ 6), ("s", 10 ^ 9), ("m", 6 * 10 ^ 10), ("h", 36 * 10 ^ 11)]

/-- The number of values a response holds, over all entries of all results. -/
def Response.valueCount (resp : Response) : Nat :=
  ((resp.Results.map fun r => (r.Series.map fun s => s.Values.length).sum)).sum

/-- The number of rows the stream holds, over all series of all statements. -/
def totalRows (results : List ResultSet) : Nat :=
  ((results.map fun stmt => (stmt.SeriesCh.map fun ser => ser.RowCh.length).sum)).sum

/-- A stream of one statement whose second series carries an error. -/
def seriesErrorStream : List ResultSet :=
  [ { ID := 0, Messages := [], Err := none,
      SeriesCh :=
        [ { Name := "cpu", Tags := ⟨[("host", "server01")]⟩, Columns := ["time", "value"],
            Err := none, RowCh := [ ⟨[Value.time 0, Value.float 2], none⟩ ] },
          { Name := "cpu", Tags := ⟨[("host", "server02")]⟩, Columns := ["time", "value"],
            Err := some "boom", RowCh := [] } ] } ]

/-! ## The writes of the chunked emitter, as functions of the stream -/

/-- A response of one result holding one entry of `ser`. -/
def chunkResponse (stmt : ResultSet) (ser : Series) (msgs : List Message)
    (piece : List (List Value)) (sflag rflag : Bool) : Response :=
  ⟨[{ StatementID := stmt.ID, Series := [ser.entry piece sflag], Messages := msgs,
      Err := none, Partial := rflag }]⟩

/-- The buffer discipline of the chunked row loop on the values alone: `cur` is
the buffer, the list is what still arrives; the result is the pieces flushed on
the way and the buffer at the end. -/
def cut (c : Int) : List (List Value) → List (List Value) →
    List (List (List Value)) × List (List Value)
  | cur, [] => ([], cur)
  | cur, v :: vs =>
    if c > 0 ∧ (cur.length : Int) ≥ c then
      ((cut c [v] vs).1.cons cur, (cut c [v] vs).2)
    else
      cut c (cur ++ [v]) vs

/-- The writes that flush `pieces`: the first one carries `msgs`. -/
def flushWrites (stmt : ResultSet) (ser : Series) (msgs : List Message) :
    List (List (List Value)) → List Response
  | [] => []
  | p :: ps => chunkResponse stmt ser msgs p true true :: flushWrites stmt ser [] ps

/-- The variable `messages` once the rows of `ser` are drained. -/
def msgsAfter (e : ChunkedEmitter) (msgs : List Message) (ser : Series) : List Message :=
  if (cut e.ChunkSize [] (ser.RowCh.map (emittedValues e.Epoch))).1 = [] then msgs else []

/-- The writes made for `ser`; `hasNext` tells whether a further series
follows. -/
def seriesBlock (e : ChunkedEmitter) (stmt : ResultSet) (msgs : List Message) (ser : Series)
    (hasNext : Bool) : List Response :=
  flushWrites stmt ser msgs (cut e.ChunkSize [] (ser.RowCh.map (emittedValues e.Epoch))).1 ++
    [chunkResponse stmt ser (msgsAfter e msgs ser)
      (cut e.ChunkSize [] (ser.RowCh.map (emittedValues e.Epoch))).2 false hasNext]

/-- The writes made for a run of series whose first is not in error, one block
per series. -/
def seriesBlocks (e : ChunkedEmitter) (stmt : ResultSet) :
    List Message → List Series → List (List Response)
  | _, [] => []
  | msgs, ser :: more =>
    seriesBlock e stmt msgs ser (!more.isEmpty) ::
      seriesBlocks e stmt (msgsAfter e msgs ser) more

/-- The writes made for one statement. -/
def statementWrites (e : ChunkedEmitter) (stmt : ResultSet) : List Response :=
  match stmt.SeriesCh with
  | [] => [⟨[{ StatementID := stmt.ID, Series := [], Messages := stmt.Messages,
               Err := none, Partial := false }]⟩]
  | ser :: more =>
    if ser.Err ≠ none then
      [⟨[{ StatementID := stmt.ID, Series := [], Messages := stmt.Messages,
           Err := ser.Err, Partial := false }]⟩]
    else (seriesBlocks e stmt stmt.Messages (ser :: more)).flatten

/-- The writes `ChunkedEmitter.Emit` makes for `stmt` when run on it alone. -/
def ChunkedEmitter.writesOf (e : ChunkedEmitter) (stmt : ResultSet) : List Response :=
  (ChunkedEmitter.Emit e ⟨[]⟩ [stmt]).writer.written

/-- The writes `block` are the writes for `ser`: each carries one entry of
`ser`, the values they carry are in order those of the rows of `ser`, every
write but the last carries `ChunkSize` values, and the last carries at most
`ChunkSize` values, at least one if `ser` has a row. -/
def SizedBlock (e : ChunkedEmitter) (stmt : ResultSet) (ser : Series)
    (block : List Response) : Prop :=
  ∃ (init : List (List (List Value))) (lastp : List (List Value)),
    List.Forall₂
      (fun resp piece => ∃ msgs sflag rflag,
        resp = chunkResponse stmt ser msgs piece sflag rflag)
      block (init ++ [lastp]) ∧
    (init ++ [lastp]).flatten = ser.RowCh.map (emittedValues e.Epoch) ∧
    (∀ p ∈ init, (p.length : Int) = e.ChunkSize) ∧
    (lastp.length : Int) ≤ e.ChunkSize ∧
    (ser.RowCh ≠ [] → 0 < lastp.length)

/-- A stream of one statement whose only series has no rows. -/
def emptySeriesStream : List ResultSet :=
  [ { ID := 0, Messages := [], Err := none,
      SeriesCh := [ { Name := "cpu", Tags := ⟨[]⟩, Columns := ["time", "value"],
                      Err := none, RowCh := [] } ] } ]

/-- The writes `block` are the writes for `ser` with these flags: every write but
the last carries an entry flagged as partial in a result flagged as partial,
the last an entry that is not flagged; the values carried are in order those of
the rows of `ser`, and every write after the first carries a row. -/
def FlaggedBlock (e : ChunkedEmitter) (stmt : ResultSet) (ser : Series)
    (block : List Response) : Prop :=
  ∃ (initW : List Response) (init : List (List (List Value))) (lastp : List (List Value))
    (msgs : List Message) (rflag : Bool),
    block = initW ++ [chunkResponse stmt ser msgs lastp false rflag] ∧
    List.Forall₂ (fun resp piece => ∃ m, resp = chunkResponse stmt ser m piece true true)
      initW init ∧
    (init ++ [lastp]).flatten = ser.RowCh.map (emittedValues e.Epoch) ∧
    ∀ p ∈ (init ++ [lastp]).tail, p ≠ []

/-- A stream of one statement with a message and two series of one row. -/
def messageStream : List ResultSet :=
  [ { ID := 0, Messages := [⟨"warning", "deprecated"⟩], Err := none,
      SeriesCh :=
        [ { Name := "cpu", Tags := ⟨[("host", "server01")]⟩, Columns := ["time", "value"],
            Err := none, RowCh := [ ⟨[Value.time 0, Value.float 2], none⟩ ] },
          { Name := "cpu", Tags := ⟨[("host", "server02")]⟩, Columns := ["time", "value"],
            Err := none, RowCh := [ ⟨[Value.time 0, Value.float 8], none⟩ ] } ] } ]

/-- A stream of one statement that carries an error and sends no series. -/
def statementErrorStream : List ResultSet :=
  [ { ID := 0, Messages := [], Err := some "boom", SeriesCh := [] } ]

/-- A stream of one statement of three series, the second of which carries an
error. -/
def midSeriesErrorStream : List ResultSet :=
  [ { ID := 0, Messages := [], Err := none,
      SeriesCh :=
        [ { Name := "cpu", Tags := ⟨[("host", "server01")]⟩, Columns := ["time", "value"],
            Err := none, RowCh := [ ⟨[Value.time 0, Value.float 2], none⟩ ] },
          { Name := "cpu", Tags := ⟨[("host", "server02")]⟩, Columns := ["time", "value"],
            Err := some "boom", RowCh := [] },
          { Name := "cpu", Tags := ⟨[("host", "server03")]⟩, Columns := ["time", "value"],
            Err := none, RowCh := [ ⟨[Value.time 0, Value.float 8], none⟩ ] } ] } ]

/-- A statement whose first series carries an error. -/
def firstSeriesErrorStatement : ResultSet :=
  { ID := 0, Messages := [⟨"warning", "deprecated"⟩], Err := none,
    SeriesCh :=
      [ { Name := "cpu", Tags := ⟨[]⟩, Columns := ["time", "value"],
          Err := some "boom", RowCh := [] },
        testSeries02 ] }

/-- The statement `firstSeriesErrorStatement` followed by the second statement
of `emitter_test.go`. -/
def firstSeriesErrorStream : List ResultSet :=
  [firstSeriesErrorStatement, testStatement1]

/-- A statement without series and without error. -/
def noSeriesStatement : ResultSet :=
  { ID := 0, Messages := [⟨"warning", "deprecated"⟩], Err := none, SeriesCh := [] }

/-- The statement `noSeriesStatement` followed by the second statement of
`emitter_test.go`. -/
def noSeriesStream : List ResultSet :=
  [noSeriesStatement, testStatement1]

/-- The row `row` without its error. -/
def Row.clearErr (row : Row) : Row := { row with Err := none }

/-- The series `ser` with the error of each of its rows removed. -/
def Series.clearRowErrs (ser : Series) : Series :=
  { ser with RowCh := ser.RowCh.map Row.clearErr }

/-- The statement `stmt` with the error of each row of its series removed. -/
def ResultSet.clearRowErrs (stmt : ResultSet) : ResultSet :=
  { stmt with SeriesCh := stmt.SeriesCh.map Series.clearRowErrs }

/-- The writes `block` are the writes for `ser`: each carries one entry of `ser`
in a result without error, and the values they carry are in order those of all
the rows of `ser`. -/
def CarriesRows (e : ChunkedEmitter) (stmt : ResultSet) (ser : Series)
    (block : List Response) : Prop :=
  ∃ pieces : List (List (List Value)),
    List.Forall₂
      (fun resp piece => ∃ msgs sflag rflag,
        resp = ⟨[{ StatementID := stmt.ID, Messages := msgs, Err := none, Partial := rflag,
                   Series := [{ Name := ser.Name, Tags := ser.Tags.KeyValues,
                                Columns := ser.Columns, Values := piece,
                                Partial := sflag }] }]⟩)
      block pieces ∧
    pieces.flatten = ser.RowCh.map (emittedValues e.Epoch)

/-- A statement of one series of three rows, the second of which carries an
error. -/
def rowErrorStatement : ResultSet :=
  { ID := 0, Messages := [], Err := none,
    SeriesCh :=
      [ { Name := "cpu", Tags := ⟨[("host", "server01")]⟩, Columns := ["time", "value"],
          Err := none,
          RowCh := [ ⟨[Value.time 0, Value.float 2], none⟩,
                     ⟨[Value.time 10000000000, Value.float 5], some "bad row"⟩,
                     ⟨[Value.time 20000000000, Value.float 7], none⟩ ] } ] }

/-- The (statement ID, series name, row values) triples read off a result, in
the order of its entries and of their values. -/
def Result.triples (r : Result) : List (Int × String × List Value) :=
  (r.Series.map fun s => s.Values.map fun v => (r.StatementID, s.Name, v)).flatten

/-- The triples read off a response, in the order of its results. -/
def Response.triples (resp : Response) : List (Int × String × List Value) :=
  (resp.Results.map Result.triples).flatten

/-- The triples read off a sequence of writes, in write order. -/
def writtenTriples (ws : List Response) : List (Int × String × List Value) :=
  (ws.map Response.triples).flatten

/-- The result `r` that an iteration of the loop `RESULTS` starts from. -/
def Emitter.newResult (result : ResultSet) : Result :=
  { StatementID := result.ID, Messages := result.Messages, Err := result.Err,
    Series := [], Partial := false }

/-- How the iteration of the loop `RESULTS` for `result` ends. -/
def Emitter.statementExit (e : Emitter) (result : ResultSet) : SeriesExit :=
  if result.Err ≠ none then .next (Emitter.newResult result)
  else Emitter.seriesLoop e 0 (Emitter.newResult result) result.SeriesCh

/-- The result that the iteration of the loop `RESULTS` for `result` leaves in
the response. -/
def Emitter.statementResult (e : Emitter) (result : ResultSet) : Result :=
  match Emitter.statementExit e result with
  | .next r => r
  | .stop r => r
  | .panic => Emitter.newResult result

/-- A statement with two series, a row of the second of which carries an
error. -/
def rowErrorInSecondSeries : ResultSet :=
  { ID := 0, Messages := [⟨"warning", "deprecated"⟩], Err := none,
    SeriesCh :=
      [ testSeries01,
        { Name := "cpu", Tags := ⟨[("host", "server02")]⟩, Columns := ["time", "value"],
          Err := none,
          RowCh := [ ⟨[Value.time 0, Value.float 8], none⟩,
                     ⟨[Value.time 10000000000, Value.float 9], some "bad row"⟩,
                     ⟨[Value.time 20000000000, Value.float 10], none⟩ ] },
        testSeriesDatabases ] }

/-- A statement of one series without error whose third row has no values. -/
def valuelessRowStatement : ResultSet :=
  { ID := 2, Messages := [], Err := none,
    SeriesCh :=
      [ { Name := "cpu", Tags := ⟨[("host", "server01")]⟩, Columns := ["time", "value"],
          Err := none,
          RowCh := [ ⟨[Value.time 0, Value.float 2], none⟩,
                     ⟨[Value.time 10000000000, Value.float 5], none⟩,
                     ⟨[], none⟩ ] } ] }

/-! ## Lemmas on `epochConverter` -/

theorem epochConverter_isSome (epoch : String) (row : Row) (h : row.Values ≠ []) :
    ∃ row1, epochConverter epoch row = some row1 := by
  unfold epochConverter
  split
  · rename_i heq
    exact absurd heq h
  · exact ⟨_, rfl⟩
  · exact ⟨_, rfl⟩

theorem convertToEpoch_of_convertible (epoch : String) (row : Row)
    (h : Convertible epoch row) :
    ∃ row1, convertToEpoch epoch row = some row1 ∧ row1.Values = emittedValues epoch row := by
  unfold emittedValues
  rcases h with h | h
  · subst h
    exact ⟨row, by simp [convertToEpoch], by simp [convertToEpoch]⟩
  · by_cases he : epoch = ""
    · subst he
      exact ⟨row, by simp [convertToEpoch], by simp [convertToEpoch]⟩
    · obtain ⟨row1, h1⟩ := epochConverter_isSome epoch row h
      exact ⟨row1, by simp [convertToEpoch, he, h1], by simp [convertToEpoch, he, h1]⟩

theorem emittedValues_empty_epoch (row : Row) : emittedValues "" row = row.Values := by
  simp [emittedValues, convertToEpoch]

/-! ## Lemmas on `Emitter` -/

/-- The row loop drains a series whose rows are sound when the cap check never
fires. -/
theorem Emitter.rowLoop_drained (e : Emitter) (rs : List Row) :
    ∀ (s : SeriesEntry),
      (∀ row ∈ rs, row.Err = none ∧ Convertible e.Epoch row) →
      ¬ (e.MaxRowLimit > 0 ∧ ((s.Values.length + rs.length : Nat) : Int) ≥ e.MaxRowLimit) →
      Emitter.rowLoop e 0 s rs
        = .drained { s with Values := s.Values ++ rs.map (emittedValues e.Epoch) } := by
  induction rs with
  | nil => intro s _ _; simp [Emitter.rowLoop]
  | cons row rest ih =>
    intro s hrows hcap
    obtain ⟨herr, hconv⟩ := hrows row (List.mem_cons_self _ _)
    obtain ⟨row1, h1, h1v⟩ := convertToEpoch_of_convertible e.Epoch row hconv
    have hnot : ¬ (e.MaxRowLimit > 0 ∧
        (0 : Int) + (((s.Values ++ [row1.Values]).length : Nat) : Int) ≥ e.MaxRowLimit) := by
      intro hc
      apply hcap
      refine ⟨hc.1, ?_⟩
      have := hc.2
      simp only [List.length_append, List.length_cons, List.length_nil] at this ⊢
      push_cast at this ⊢
      omega
    rw [Emitter.rowLoop]
    simp only [herr, h1]
    rw [if_neg hnot]
    rw [ih]
    · simp [h1v]
    · intro r hr
      exact hrows r (List.mem_cons_of_mem _ hr)
    · intro hc
      apply hcap
      refine ⟨hc.1, ?_⟩
      have := hc.2
      simp only [List.length_append, List.length_cons, List.length_nil] at this ⊢
      push_cast at this ⊢
      omega

/-- The series loop renders every series in full when all of them are sound. -/
theorem Emitter.seriesLoop_next (e : Emitter) (sers : List Series) :
    ∀ (r : Result), (∀ ser ∈ sers, ser.Sound e) →
      Emitter.seriesLoop e 0 r sers
        = .next { r with Series := r.Series ++ sers.map (Series.fullEntry e.Epoch) } := by
  induction sers with
  | nil => intro r _; simp [Emitter.seriesLoop]
  | cons ser rest ih =>
    intro r hs
    obtain ⟨herr, hrows, hcap⟩ := hs ser (List.mem_cons_self _ _)
    rw [Emitter.seriesLoop]
    simp only [herr]
    rw [Emitter.rowLoop_drained e ser.RowCh _ hrows (by simpa using hcap)]
    simp only []
    rw [ih _ (fun x hx => hs x (List.mem_cons_of_mem _ hx))]
    simp [Series.fullEntry, Series.entry]

/-- The statement loop renders every statement in full when all are sound. -/
theorem Emitter.resultsLoop_full (e : Emitter) (results : List ResultSet) :
    ∀ (resp : Response),
      (∀ stmt ∈ results, stmt.Err = none ∧ ∀ ser ∈ stmt.SeriesCh, ser.Sound e) →
      Emitter.resultsLoop e 0 resp results
        = some ⟨resp.Results ++ results.map (ResultSet.fullResult e.Epoch)⟩ := by
  induction results with
  | nil => intro resp _; simp [Emitter.resultsLoop]
  | cons stmt rest ih =>
    intro resp hs
    obtain ⟨herr, hsers⟩ := hs stmt (List.mem_cons_self _ _)
    rw [Emitter.resultsLoop]
    simp only [herr, ne_eq, not_true_eq_false, if_false]
    rw [Emitter.seriesLoop_next e _ _ hsers]
    simp only []
    rw [ih _ (fun x hx => hs x (List.mem_cons_of_mem _ hx))]
    simp [ResultSet.fullResult]

/-- The row loop stops at the row on which the cap check first holds. -/
theorem Emitter.rowLoop_capped (e : Emitter) (rpre : List Row) (row : Row) (rpost : List Row) :
    ∀ (s : SeriesEntry),
      (∀ x ∈ rpre ++ [row], x.Err = none ∧ Convertible e.Epoch x) →
      e.MaxRowLimit > 0 →
      ((s.Values.length + rpre.length : Nat) : Int) < e.MaxRowLimit →
      e.MaxRowLimit ≤ ((s.Values.length + rpre.length + 1 : Nat) : Int) →
      Emitter.rowLoop e 0 s (rpre ++ row :: rpost)
        = .capped { s with Values := s.Values ++ (rpre ++ [row]).map (emittedValues e.Epoch),
                           Partial := true } := by
  induction rpre with
  | nil =>
    intro s hrows hpos hlt hge
    obtain ⟨herr, hconv⟩ := hrows row (by simp)
    obtain ⟨row1, h1, h1v⟩ := convertToEpoch_of_convertible e.Epoch row hconv
    have hfire : e.MaxRowLimit > 0 ∧
        (0 : Int) + (((s.Values ++ [row1.Values]).length : Nat) : Int) ≥ e.MaxRowLimit := by
      refine ⟨hpos, ?_⟩
      simp only [List.length_append, List.length_cons, List.length_nil] at hge ⊢
      push_cast at hge ⊢
      omega
    rw [List.nil_append, Emitter.rowLoop]
    simp only [herr, h1]
    rw [if_pos hfire]
    simp [h1v]
  | cons x rest ih =>
    intro s hrows hpos hlt hge
    obtain ⟨herr, hconv⟩ := hrows x (by simp)
    obtain ⟨row1, h1, h1v⟩ := convertToEpoch_of_convertible e.Epoch x hconv
    have hnot : ¬ (e.MaxRowLimit > 0 ∧
        (0 : Int) + (((s.Values ++ [row1.Values]).length : Nat) : Int) ≥ e.MaxRowLimit) := by
      intro hc
      have := hc.2
      simp only [List.length_append, List.length_cons, List.length_nil] at this hlt
      push_cast at this hlt
      omega
    rw [List.cons_append, Emitter.rowLoop]
    simp only [herr, h1]
    rw [if_neg hnot]
    rw [ih]
    · simp [h1v]
    · intro y hy
      exact hrows y (by simp only [List.cons_append, List.mem_cons]; exact Or.inr hy)
    · exact hpos
    · simp only [List.length_append, List.length_cons, List.length_nil] at hlt ⊢
      push_cast at hlt ⊢
      omega
    · simp only [List.length_append, List.length_cons, List.length_nil] at hge ⊢
      push_cast at hge ⊢
      omega

/-- The series loop passes over sound series and goes on with the rest. -/
theorem Emitter.seriesLoop_append (e : Emitter) (spre : List Series) (rest : List Series) :
    ∀ (r : Result), (∀ ser ∈ spre, ser.Sound e) →
      Emitter.seriesLoop e 0 r (spre ++ rest)
        = Emitter.seriesLoop e 0
            { r with Series := r.Series ++ spre.map (Series.fullEntry e.Epoch) } rest := by
  induction spre with
  | nil => intro r _; simp
  | cons ser more ih =>
    intro r hs
    obtain ⟨herr, hrows, hcap⟩ := hs ser (List.mem_cons_self _ _)
    rw [List.cons_append, Emitter.seriesLoop]
    simp only [herr]
    rw [Emitter.rowLoop_drained e ser.RowCh _ hrows (by simpa using hcap)]
    simp only []
    rw [ih _ (fun x hx => hs x (List.mem_cons_of_mem _ hx))]
    simp [Series.fullEntry, Series.entry]

/-- The statement loop passes over sound statements and goes on with the rest. -/
theorem Emitter.resultsLoop_append (e : Emitter) (pre : List ResultSet) (rest : List ResultSet) :
    ∀ (resp : Response),
      (∀ stmt ∈ pre, stmt.Err = none ∧ ∀ ser ∈ stmt.SeriesCh, ser.Sound e) →
      Emitter.resultsLoop e 0 resp (pre ++ rest)
        = Emitter.resultsLoop e 0
            ⟨resp.Results ++ pre.map (ResultSet.fullResult e.Epoch)⟩ rest := by
  induction pre with
  | nil => intro resp _; simp
  | cons stmt more ih =>
    intro resp hs
    obtain ⟨herr, hsers⟩ := hs stmt (List.mem_cons_self _ _)
    rw [List.cons_append, Emitter.resultsLoop]
    simp only [herr, ne_eq, not_true_eq_false, if_false]
    rw [Emitter.seriesLoop_next e _ _ hsers]
    simp only []
    rw [ih _ (fun x hx => hs x (List.mem_cons_of_mem _ hx))]
    simp [ResultSet.fullResult]

/-- One iteration of the loop `RESULTS`. -/
theorem Emitter.resultsLoop_cons (e : Emitter) (resp : Response) (stmt : ResultSet)
    (rest : List ResultSet) :
    Emitter.resultsLoop e 0 resp (stmt :: rest)
      = match Emitter.statementExit e stmt with
        | .next r => Emitter.resultsLoop e 0 ⟨resp.Results ++ [r]⟩ rest
        | .stop r => some ⟨resp.Results ++ [r]⟩
        | .panic => none := by
  rw [Emitter.resultsLoop]
  unfold Emitter.statementExit Emitter.newResult
  by_cases herr : stmt.Err ≠ none
  · simp only [herr, ne_eq, not_false_eq_true, if_true]
  · simp only [herr, ne_eq, if_false]

/-- The loop `RESULTS` passes over the statements whose iteration reaches the
next one. -/
theorem Emitter.resultsLoop_pass (e : Emitter) (pre : List ResultSet) (rest : List ResultSet) :
    ∀ (resp : Response), (∀ st ∈ pre, ∃ r, Emitter.statementExit e st = .next r) →
      Emitter.resultsLoop e 0 resp (pre ++ rest)
        = Emitter.resultsLoop e 0
            ⟨resp.Results ++ pre.map (Emitter.statementResult e)⟩ rest := by
  induction pre with
  | nil => intro resp _; simp
  | cons stmt more ih =>
    intro resp hs
    obtain ⟨r, hr⟩ := hs stmt (List.mem_cons_self _ _)
    rw [List.cons_append, Emitter.resultsLoop_cons, hr]
    simp only []
    rw [ih _ (fun x hx => hs x (List.mem_cons_of_mem _ hx))]
    simp [Emitter.statementResult, hr]

/-- The row loop does not fail when no conversion fails. -/
theorem Emitter.rowLoop_ne_panic (e : Emitter) (rows : Int) (rs : List Row) :
    ∀ (s : SeriesEntry), (∀ row ∈ rs, Convertible e.Epoch row) →
      Emitter.rowLoop e rows s rs ≠ .panic := by
  induction rs with
  | nil => intro s _; simp [Emitter.rowLoop]
  | cons row rest ih =>
    intro s hconv
    obtain ⟨row1, h1, _⟩ := convertToEpoch_of_convertible e.Epoch row
      (hconv row (List.mem_cons_self _ _))
    rw [Emitter.rowLoop]
    cases herr : row.Err with
    | some err => simp
    | none =>
      simp only [h1]
      split
      · simp
      · exact ih _ (fun x hx => hconv x (List.mem_cons_of_mem _ hx))

/-- The row loop is not cut without a positive cap. -/
theorem Emitter.rowLoop_ne_capped (e : Emitter) (rows : Int) (hL : ¬ e.MaxRowLimit > 0)
    (rs : List Row) :
    ∀ (s s1 : SeriesEntry), Emitter.rowLoop e rows s rs ≠ .capped s1 := by
  induction rs with
  | nil => intro s s1; simp [Emitter.rowLoop]
  | cons row rest ih =>
    intro s s1
    rw [Emitter.rowLoop]
    cases herr : row.Err with
    | some err => simp
    | none =>
      cases hrow : convertToEpoch e.Epoch row with
      | none => simp
      | some row1 =>
        simp only []
        rw [if_neg (fun h => hL h.1)]
        exact ih _ _

/-- The series loop does not fail when no conversion fails, and the result it
leaves keeps the ID and the messages of the result it started from. -/
theorem Emitter.seriesLoop_shape (e : Emitter) (rows : Int) (sers : List Series) :
    ∀ (r : Result), (∀ ser ∈ sers, ∀ row ∈ ser.RowCh, Convertible e.Epoch row) →
      ∃ r1, (Emitter.seriesLoop e rows r sers = .next r1 ∨
             Emitter.seriesLoop e rows r sers = .stop r1) ∧
        r1.StatementID = r.StatementID ∧ r1.Messages = r.Messages := by
  induction sers with
  | nil => intro r _; exact ⟨r, Or.inl (by simp [Emitter.seriesLoop]), rfl, rfl⟩
  | cons ser more ih =>
    intro r hconv
    have hser := hconv ser (List.mem_cons_self _ _)
    rw [Emitter.seriesLoop]
    cases herr : ser.Err with
    | some err => exact ⟨_, Or.inl rfl, rfl, rfl⟩
    | none =>
      simp only []
      cases hrows : Emitter.rowLoop e rows
          { Name := ser.Name, Tags := ser.Tags.KeyValues, Columns := ser.Columns,
            Values := [], Partial := false } ser.RowCh with
      | drained s1 =>
        simp only []
        obtain ⟨r1, h1, hid, hmsg⟩ := ih { r with Series := r.Series ++ [s1] }
          (fun x hx => hconv x (List.mem_cons_of_mem _ hx))
        exact ⟨r1, h1, hid, hmsg⟩
      | rowErr err => exact ⟨_, Or.inl rfl, rfl, rfl⟩
      | capped s1 => exact ⟨_, Or.inr rfl, rfl, rfl⟩
      | panic => exact absurd hrows (Emitter.rowLoop_ne_panic e rows ser.RowCh _ hser)

/-- The series loop leaves by `break RESULTS` only with a positive cap. -/
theorem Emitter.seriesLoop_ne_stop (e : Emitter) (rows : Int) (hL : ¬ e.MaxRowLimit > 0)
    (sers : List Series) :
    ∀ (r r1 : Result), Emitter.seriesLoop e rows r sers ≠ .stop r1 := by
  induction sers with
  | nil => intro r r1; simp [Emitter.seriesLoop]
  | cons ser more ih =>
    intro r r1
    rw [Emitter.seriesLoop]
    cases herr : ser.Err with
    | some err => simp
    | none =>
      simp only []
      cases hrows : Emitter.rowLoop e rows
          { Name := ser.Name, Tags := ser.Tags.KeyValues, Columns := ser.Columns,
            Values := [], Partial := false } ser.RowCh with
      | drained s1 => exact ih _ _
      | rowErr err => simp
      | capped s1 => exact absurd hrows (Emitter.rowLoop_ne_capped e rows hL ser.RowCh _ _)
      | panic => simp

/-- An iteration of the loop `RESULTS` does not fail when no conversion fails,
and the result it leaves has the ID and the messages of its statement. -/
theorem Emitter.statementExit_shape (e : Emitter) (stmt : ResultSet)
    (hconv : ∀ ser ∈ stmt.SeriesCh, ∀ row ∈ ser.RowCh, Convertible e.Epoch row) :
    ∃ r1, (Emitter.statementExit e stmt = .next r1 ∨ Emitter.statementExit e stmt = .stop r1) ∧
      r1.StatementID = stmt.ID ∧ r1.Messages = stmt.Messages := by
  unfold Emitter.statementExit
  by_cases herr : stmt.Err ≠ none
  · rw [if_pos herr]
    exact ⟨_, Or.inl rfl, rfl, rfl⟩
  · rw [if_neg herr]
    exact Emitter.seriesLoop_shape e 0 stmt.SeriesCh (Emitter.newResult stmt) hconv

/-- Without a positive cap and without a failing conversion every iteration of
the loop `RESULTS` reaches the next one. -/
theorem Emitter.statementExit_next (e : Emitter) (hL : ¬ e.MaxRowLimit > 0) (stmt : ResultSet)
    (hconv : ∀ ser ∈ stmt.SeriesCh, ∀ row ∈ ser.RowCh, Convertible e.Epoch row) :
    ∃ r1, Emitter.statementExit e stmt = .next r1 ∧
      r1.StatementID = stmt.ID ∧ r1.Messages = stmt.Messages := by
  obtain ⟨r1, h | h, hid, hmsg⟩ := Emitter.statementExit_shape e stmt hconv
  · exact ⟨r1, h, hid, hmsg⟩
  · exfalso
    unfold Emitter.statementExit at h
    by_cases herr : stmt.Err ≠ none
    · rw [if_pos herr] at h
      exact SeriesExit.noConfusion h
    · rw [if_neg herr] at h
      exact Emitter.seriesLoop_ne_stop e 0 hL stmt.SeriesCh _ _ h

/-- The loop `RESULTS` returns when no conversion fails; the response then
extends the one it started from, first by a result for the first statement. -/
theorem Emitter.resultsLoop_returns (e : Emitter) (rs : List ResultSet) :
    ∀ (resp : Response), NoPanic e.Epoch rs →
      ∃ more, Emitter.resultsLoop e 0 resp rs = some ⟨resp.Results ++ more⟩ ∧
        ∀ nxt rest, rs = nxt :: rest →
          ∃ r more1, more = r :: more1 ∧ r.StatementID = nxt.ID ∧ r.Messages = nxt.Messages := by
  induction rs with
  | nil =>
    intro resp _
    exact ⟨[], by simp [Emitter.resultsLoop], fun _ _ h => List.noConfusion h⟩
  | cons stmt rest ih =>
    intro resp hconv
    obtain ⟨r1, h | h, hid, hmsg⟩ := Emitter.statementExit_shape e stmt
      (hconv stmt (List.mem_cons_self _ _))
    · obtain ⟨more, hmore, _⟩ := ih ⟨resp.Results ++ [r1]⟩
        (fun x hx => hconv x (List.mem_cons_of_mem _ hx))
      refine ⟨r1 :: more, ?_, ?_⟩
      · rw [Emitter.resultsLoop_cons, h]
        simp only []
        rw [hmore]
        simp
      · intro nxt rest1 heq
        obtain ⟨rfl, _⟩ := List.cons.inj heq
        exact ⟨r1, more, rfl, hid, hmsg⟩
    · refine ⟨[r1], ?_, ?_⟩
      · rw [Emitter.resultsLoop_cons, h]
      · intro nxt rest1 heq
        obtain ⟨rfl, _⟩ := List.cons.inj heq
        exact ⟨r1, [], rfl, hid, hmsg⟩

/-- The row loop leaves with the error of the first row in error when the cap
check does not hold before it. -/
theorem Emitter.rowLoop_rowErr (e : Emitter) (rpre : List Row) (row : Row) (rpost : List Row)
    (err : String) (herr : row.Err = some err) :
    ∀ (s : SeriesEntry),
      (∀ x ∈ rpre, x.Err = none ∧ Convertible e.Epoch x) →
      ¬ (e.MaxRowLimit > 0 ∧ ((s.Values.length + rpre.length : Nat) : Int) ≥ e.MaxRowLimit) →
      Emitter.rowLoop e 0 s (rpre ++ row :: rpost) = .rowErr err := by
  induction rpre with
  | nil =>
    intro s _ _
    rw [List.nil_append, Emitter.rowLoop]
    simp only [herr]
  | cons x rest ih =>
    intro s hrows hcap
    obtain ⟨hxerr, hconv⟩ := hrows x (List.mem_cons_self _ _)
    obtain ⟨row1, h1, _⟩ := convertToEpoch_of_convertible e.Epoch x hconv
    have hnot : ¬ (e.MaxRowLimit > 0 ∧
        (0 : Int) + (((s.Values ++ [row1.Values]).length : Nat) : Int) ≥ e.MaxRowLimit) := by
      intro hc
      apply hcap
      refine ⟨hc.1, ?_⟩
      have := hc.2
      simp only [List.length_append, List.length_cons, List.length_nil] at this ⊢
      push_cast at this ⊢
      omega
    rw [List.cons_append, Emitter.rowLoop]
    simp only [hxerr, h1]
    rw [if_neg hnot]
    apply ih
    · exact fun y hy => hrows y (List.mem_cons_of_mem _ hy)
    · intro hc
      apply hcap
      refine ⟨hc.1, ?_⟩
      have := hc.2
      simp only [List.length_append, List.length_cons, List.length_nil] at this ⊢
      push_cast at this ⊢
      omega

/-! ## Lemmas on `ChunkedEmitter` -/

/-- The chunked row loop, by `cut` and `flushWrites`. -/
theorem ChunkedEmitter.rowLoop_eq (e : ChunkedEmitter) (stmt : ResultSet) (ser : Series)
    (rs : List Row) :
    ∀ (st : ChunkState), (∀ row ∈ rs, Convertible e.Epoch row) →
      ChunkedEmitter.rowLoop e stmt ser st rs
        = .ok { messages :=
                  if (cut e.ChunkSize st.values (rs.map (emittedValues e.Epoch))).1 = []
                  then st.messages else [],
                values := (cut e.ChunkSize st.values (rs.map (emittedValues e.Epoch))).2,
                w := ⟨st.w.written ++ flushWrites stmt ser st.messages
                  (cut e.ChunkSize st.values (rs.map (emittedValues e.Epoch))).1⟩ } := by
  induction rs with
  | nil => intro st _; simp [ChunkedEmitter.rowLoop, cut, flushWrites]
  | cons row rest ih =>
    intro st hconv
    obtain ⟨row1, h1, h1v⟩ := convertToEpoch_of_convertible e.Epoch row
      (hconv row (List.mem_cons_self _ _))
    have hrest : ∀ x ∈ rest, Convertible e.Epoch x :=
      fun x hx => hconv x (List.mem_cons_of_mem _ hx)
    rw [ChunkedEmitter.rowLoop]
    simp only [h1, List.map_cons]
    by_cases hc : e.ChunkSize > 0 ∧ (st.values.length : Int) ≥ e.ChunkSize
    · rw [if_pos hc, ih _ hrest]
      simp only [cut, if_pos hc, h1v, List.cons_ne_nil, if_false, ite_self, flushWrites,
        ResponseWriter.WriteResponse, ChunkedEmitter.flushResult, chunkResponse, Series.entry,
        List.append_assoc, List.singleton_append]
    · rw [if_neg hc, ih _ hrest]
      simp only [cut, if_neg hc, h1v]

/-- The chunked series loop writes the blocks of its series, in order. -/
theorem ChunkedEmitter.seriesLoop_eq (e : ChunkedEmitter) (stmt : ResultSet)
    (sers : List Series) :
    ∀ (msgs : List Message) (w : ResponseWriter),
      (∀ ser ∈ sers, ∀ row ∈ ser.RowCh, Convertible e.Epoch row) →
      ChunkedEmitter.seriesLoop e stmt msgs w sers
        = .returned ⟨w.written ++ (seriesBlocks e stmt msgs sers).flatten⟩ := by
  induction sers with
  | nil => intro msgs w _; simp [ChunkedEmitter.seriesLoop, seriesBlocks]
  | cons ser more ih =>
    intro msgs w hconv
    have hser := hconv ser (List.mem_cons_self _ _)
    rw [ChunkedEmitter.seriesLoop, ChunkedEmitter.rowLoop_eq e stmt ser ser.RowCh _ hser]
    cases more with
    | nil =>
      simp [seriesBlocks, seriesBlock, msgsAfter, ResponseWriter.WriteResponse,
        ChunkedEmitter.lastResult, chunkResponse, Series.entry]
    | cons next more1 =>
      simp only []
      rw [ih _ _ (fun x hx => hconv x (List.mem_cons_of_mem _ hx))]
      simp [seriesBlocks, seriesBlock, msgsAfter, ResponseWriter.WriteResponse,
        ChunkedEmitter.lastResult, chunkResponse, Series.entry]

/-- The chunked statement loop writes the writes of its statements, in order. -/
theorem ChunkedEmitter.resultsLoop_eq (e : ChunkedEmitter) (results : List ResultSet) :
    ∀ (w : ResponseWriter), NoPanic e.Epoch results →
      ChunkedEmitter.resultsLoop e w results
        = .returned ⟨w.written ++ (results.map (statementWrites e)).flatten⟩ := by
  induction results with
  | nil => intro w _; simp [ChunkedEmitter.resultsLoop]
  | cons stmt rest ih =>
    intro w hconv
    have hrest : NoPanic e.Epoch rest :=
      fun x hx => hconv x (List.mem_cons_of_mem _ hx)
    have hstmt := hconv stmt (List.mem_cons_self _ _)
    rw [ChunkedEmitter.resultsLoop]
    cases hs : stmt.SeriesCh with
    | nil =>
      simp only []
      rw [ih _ hrest]
      simp [statementWrites, hs, ResponseWriter.WriteResponse]
    | cons ser more =>
      simp only []
      by_cases herr : ser.Err ≠ none
      · rw [if_pos herr, ih _ hrest]
        simp [statementWrites, hs, herr, ResponseWriter.WriteResponse]
      · rw [if_neg herr, ChunkedEmitter.seriesLoop_eq e stmt _ _ _ (by rw [← hs]; exact hstmt)]
        simp only []
        rw [ih _ hrest]
        simp [statementWrites, hs, herr]

/-- The writes of a run are those of its statements run one by one, in order. -/
theorem ChunkedEmitter.emit_eq (e : ChunkedEmitter) (w : ResponseWriter)
    (results : List ResultSet) (h : NoPanic e.Epoch results) :
    ChunkedEmitter.Emit e w results
      = .returned ⟨w.written ++ (results.map (statementWrites e)).flatten⟩ :=
  ChunkedEmitter.resultsLoop_eq e results w h

/-- The writes of a run on one statement. -/
theorem ChunkedEmitter.emit_single (e : ChunkedEmitter) (stmt : ResultSet)
    (h : ∀ ser ∈ stmt.SeriesCh, ∀ row ∈ ser.RowCh, Convertible e.Epoch row) :
    (ChunkedEmitter.Emit e ⟨[]⟩ [stmt]).writer.written = statementWrites e stmt := by
  rw [ChunkedEmitter.emit_eq e ⟨[]⟩ [stmt] (by
    intro x hx
    rw [List.mem_singleton] at hx
    subst hx
    exact h)]
  simp [Outcome.writer]

/-- Cutting loses, repeats and reorders nothing. -/
theorem cut_flatten (c : Int) (vs : List (List Value)) :
    ∀ (cur : List (List Value)), (cut c cur vs).1.flatten ++ (cut c cur vs).2 = cur ++ vs := by
  induction vs with
  | nil => intro cur; simp [cut]
  | cons v rest ih =>
    intro cur
    by_cases hc : c > 0 ∧ (cur.length : Int) ≥ c
    · have := ih [v]
      simp only [cut, if_pos hc, List.flatten_cons, List.append_assoc, this,
        List.singleton_append]
    · have := ih (cur ++ [v])
      simp only [cut, if_neg hc, this, List.append_assoc, List.singleton_append]

/-- Every flushed piece holds exactly `c` values. -/
theorem cut_pieces_length (c : Int) (hc : c > 0) (vs : List (List Value)) :
    ∀ (cur : List (List Value)), (cur.length : Int) ≤ c →
      ∀ p ∈ (cut c cur vs).1, (p.length : Int) = c := by
  induction vs with
  | nil => intro cur _ p hp; simp [cut] at hp
  | cons v rest ih =>
    intro cur hcur p hp
    by_cases hf : c > 0 ∧ (cur.length : Int) ≥ c
    · simp only [cut, if_pos hf, List.mem_cons] at hp
      rcases hp with rfl | hp
      · have := hf.2
        omega
      · exact ih [v] (by simp only [List.length_singleton]; omega) p hp
    · simp only [cut, if_neg hf] at hp
      refine ih (cur ++ [v]) ?_ p hp
      have hlt : (cur.length : Int) < c := by
        by_contra hge
        exact hf ⟨hc, by omega⟩
      simp only [List.length_append, List.length_singleton]
      push_cast
      omega

/-- The buffer left at the end holds at most `c` values. -/
theorem cut_last_length (c : Int) (hc : c > 0) (vs : List (List Value)) :
    ∀ (cur : List (List Value)), (cur.length : Int) ≤ c →
      ((cut c cur vs).2.length : Int) ≤ c := by
  induction vs with
  | nil => intro cur hcur; simpa [cut] using hcur
  | cons v rest ih =>
    intro cur hcur
    by_cases hf : c > 0 ∧ (cur.length : Int) ≥ c
    · simp only [cut, if_pos hf]
      exact ih [v] (by simp only [List.length_singleton]; omega)
    · simp only [cut, if_neg hf]
      refine ih (cur ++ [v]) ?_
      have hlt : (cur.length : Int) < c := by
        by_contra hge
        exact hf ⟨hc, by omega⟩
      simp only [List.length_append, List.length_singleton]
      push_cast
      omega

/-- The buffer left at the end is not empty once a value went in. -/
theorem cut_last_ne_nil (c : Int) (vs : List (List Value)) :
    ∀ (cur : List (List Value)), cur ≠ [] ∨ vs ≠ [] → (cut c cur vs).2 ≠ [] := by
  induction vs with
  | nil =>
    intro cur h
    rcases h with h | h
    · simpa [cut] using h
    · exact absurd rfl h
  | cons v rest ih =>
    intro cur _
    by_cases hf : c > 0 ∧ (cur.length : Int) ≥ c
    · simp only [cut, if_pos hf]
      exact ih [v] (Or.inl (by simp))
    · simp only [cut, if_neg hf]
      exact ih (cur ++ [v]) (Or.inl (by simp))

/-- Every piece flushed after the buffer was first filled holds a value. -/
theorem cut_pieces_ne_nil (c : Int) (vs : List (List Value)) :
    ∀ (cur : List (List Value)), cur ≠ [] → ∀ p ∈ (cut c cur vs).1, p ≠ [] := by
  induction vs with
  | nil => intro cur _ p hp; simp [cut] at hp
  | cons v rest ih =>
    intro cur hcur p hp
    by_cases hf : c > 0 ∧ (cur.length : Int) ≥ c
    · simp only [cut, if_pos hf, List.mem_cons] at hp
      rcases hp with rfl | hp
      · exact hcur
      · exact ih [v] (by simp) p hp
    · simp only [cut, if_neg hf] at hp
      exact ih (cur ++ [v]) (by simp) p hp

/-- Without a positive chunk size nothing is flushed before the end. -/
theorem cut_of_nonpos (c : Int) (hc : ¬ c > 0) (vs : List (List Value)) :
    ∀ (cur : List (List Value)), cut c cur vs = ([], cur ++ vs) := by
  induction vs with
  | nil => intro cur; simp [cut]
  | cons v rest ih =>
    intro cur
    have hf : ¬ (c > 0 ∧ (cur.length : Int) ≥ c) := fun h => hc h.1
    simp only [cut, if_neg hf, ih, List.append_assoc, List.singleton_append]

/-- Starting from the empty buffer, every flushed piece holds a value. -/
theorem cut_nil_pieces_ne_nil (c : Int) (vs : List (List Value)) :
    ∀ p ∈ (cut c [] vs).1, p ≠ [] := by
  cases vs with
  | nil => intro p hp; simp [cut] at hp
  | cons v rest =>
    intro p hp
    have hf : ¬ (c > 0 ∧ (([] : List (List Value)).length : Int) ≥ c) := by
      intro h
      have := h.2
      simp only [List.length_nil] at this
      omega
    simp only [cut, if_neg hf, List.nil_append] at hp
    exact cut_pieces_ne_nil c rest [v] (by simp) p hp

/-- Each flushing write carries its piece with both flags set. -/
theorem flushWrites_forall₂ (stmt : ResultSet) (ser : Series) (ps : List (List (List Value))) :
    ∀ (msgs : List Message),
      List.Forall₂ (fun resp piece => ∃ m, resp = chunkResponse stmt ser m piece true true)
        (flushWrites stmt ser msgs ps) ps := by
  induction ps with
  | nil => intro msgs; exact List.Forall₂.nil
  | cons p rest ih =>
    intro msgs
    exact List.Forall₂.cons ⟨msgs, rfl⟩ (ih [])

/-- Each flushing write has its result flagged as partial. -/
theorem flushWrites_partial (stmt : ResultSet) (ser : Series) (ps : List (List (List Value))) :
    ∀ (msgs : List Message), ∀ resp ∈ flushWrites stmt ser msgs ps,
      ∀ r ∈ resp.Results, r.Partial = true := by
  induction ps with
  | nil => intro msgs resp hresp; simp [flushWrites] at hresp
  | cons p rest ih =>
    intro msgs resp hresp r hr
    simp only [flushWrites, List.mem_cons] at hresp
    rcases hresp with rfl | hresp
    · simp only [chunkResponse, List.mem_singleton] at hr
      subst hr
      rfl
    · exact ih [] resp hresp r hr

/-- The blocks of a run of series are the blocks of its series, in order. -/
theorem seriesBlocks_forall₂ (e : ChunkedEmitter) (stmt : ResultSet) (sers : List Series) :
    ∀ (msgs : List Message),
      List.Forall₂ (fun ser block => ∃ m hasNext, block = seriesBlock e stmt m ser hasNext)
        sers (seriesBlocks e stmt msgs sers) := by
  induction sers with
  | nil => intro msgs; exact List.Forall₂.nil
  | cons ser more ih =>
    intro msgs
    exact List.Forall₂.cons ⟨msgs, !more.isEmpty, rfl⟩ (ih _)

/-- Within the writes of a run of series, every result but the last is flagged
as partial, and the last is not. -/
theorem seriesBlocks_partial (e : ChunkedEmitter) (stmt : ResultSet) (ser : Series)
    (more : List Series) :
    ∀ (msgs : List Message), ∃ sinit slast,
      (seriesBlocks e stmt msgs (ser :: more)).flatten = sinit ++ [slast] ∧
      (∀ resp ∈ sinit, ∀ r ∈ resp.Results, r.Partial = true) ∧
      (∀ r ∈ slast.Results, r.Partial = false) := by
  induction more generalizing ser with
  | nil =>
    intro msgs
    refine ⟨_, _, by simp only [seriesBlocks, seriesBlock, List.flatten_cons,
      List.flatten_nil, List.append_nil]; rfl, flushWrites_partial stmt ser _ msgs, ?_⟩
    intro r hr
    simp only [chunkResponse, List.mem_singleton] at hr
    subst hr
    rfl
  | cons next more1 ih =>
    intro msgs
    obtain ⟨sinit, slast, heq, hinit, hlast⟩ := ih next (msgsAfter e msgs ser)
    refine ⟨seriesBlock e stmt msgs ser true ++ sinit, slast, ?_, ?_, hlast⟩
    · rw [seriesBlocks, List.flatten_cons, heq]
      simp
    · intro resp hresp r hr
      rw [List.mem_append] at hresp
      rcases hresp with hresp | hresp
      · simp only [seriesBlock, List.mem_append, List.mem_singleton] at hresp
        rcases hresp with hresp | rfl
        · exact flushWrites_partial stmt ser _ msgs resp hresp r hr
        · simp only [chunkResponse, List.mem_singleton] at hr
          subst hr
          rfl
      · exact hinit resp hresp r hr

/-! ## Claims on `Emitter` -/

/-- C1: on an error-free stream, `Emitter.Emit` with `MaxRowLimit = 0` and
`Epoch = ""` returns after exactly one write; the response written holds one
result per statement in source order with the statement's ID and messages, each
result one entry per series in source order with its name, tags and columns,
each entry exactly the values of the series' rows in source order, and no entry
is flagged as partial. -/
theorem Emitter.emit_unbounded_error_free (w : ResponseWriter) (results : List ResultSet)
    (h : ErrorFree results) :
    Emitter.Emit { MaxRowLimit := 0, Epoch := "" } w results
      = .returned ⟨w.written ++
          [⟨results.map fun stmt =>
              { StatementID := stmt.ID, Messages := stmt.Messages, Err := none,
                Partial := false,
                Series := stmt.SeriesCh.map fun ser =>
                  { Name := ser.Name, Tags := ser.Tags.KeyValues, Columns := ser.Columns,
                    Values := ser.RowCh.map fun row => row.Values,
                    Partial := false } }⟩]⟩ := by
  have hfull := Emitter.resultsLoop_full { MaxRowLimit := 0, Epoch := "" } results ⟨[]⟩
    (fun stmt hstmt => ⟨(h stmt hstmt).1, fun ser hser =>
      ⟨((h stmt hstmt).2 ser hser).1,
       fun row hrow => ⟨((h stmt hstmt).2 ser hser).2 row hrow, Or.inl rfl⟩,
       by simp⟩⟩)
  have hmap : results.map (ResultSet.fullResult "")
      = results.map fun stmt =>
          ({ StatementID := stmt.ID, Messages := stmt.Messages, Err := none,
             Partial := false,
             Series := stmt.SeriesCh.map fun ser =>
               { Name := ser.Name, Tags := ser.Tags.KeyValues, Columns := ser.Columns,
                 Values := ser.RowCh.map fun row => row.Values,
                 Partial := false } } : Result) := by
    apply List.map_congr_left
    intro stmt _
    have hs : stmt.SeriesCh.map (Series.fullEntry "")
        = stmt.SeriesCh.map fun ser =>
            ({ Name := ser.Name, Tags := ser.Tags.KeyValues, Columns := ser.Columns,
               Values := ser.RowCh.map fun row => row.Values,
               Partial := false } : SeriesEntry) := by
      apply List.map_congr_left
      intro ser _
      have hr : ser.RowCh.map (emittedValues "") = ser.RowCh.map fun row => row.Values :=
        List.map_congr_left (fun row _ => emittedValues_empty_epoch row)
      simp only [Series.fullEntry, Series.entry, hr]
    simp only [ResultSet.fullResult, hs]
  unfold Emitter.Emit
  rw [hfull]
  simp only [ResponseWriter.WriteResponse, List.nil_append, hmap]

/-- Witness of C1: the stream of `emitter_test.go`, as `TestEmitter` runs it. -/
theorem Emitter.emit_unbounded_error_free_witness :
    ErrorFree EmitTestResults ∧
    Emitter.Emit { MaxRowLimit := 0, Epoch := "" } ⟨[]⟩ EmitTestResults
      = .returned ⟨[⟨[
          { StatementID := 0, Messages := [], Err := none, Partial := false,
            Series := [{ Name := "cpu", Tags := [("host", "server01")],
                         Columns := ["time", "value"],
                         Values := [[Value.time 0, Value.float 2],
                                    [Value.time 10000000000, Value.float 5],
                                    [Value.time 20000000000, Value.float 7]],
                         Partial := false },
                       { Name := "cpu", Tags := [("host", "server02")],
                         Columns := ["time", "value"],
                         Values := [[Value.time 0, Value.float 8]],
                         Partial := false }] },
          { StatementID := 1, Messages := [], Err := none, Partial := false,
            Series := [{ Name := "databases", Tags := [], Columns := ["name"],
                         Values := [[Value.str "db0"], [Value.str "db1"]],
                         Partial := false }] }]⟩]⟩ :=
  ⟨by decide,
   Emitter.emit_unbounded_error_free ⟨[]⟩ EmitTestResults (by decide)⟩

/-- C6, the code at a failing input: on the stream of `emitter_test.go`
(series of 3, 1 and 2 rows) with `MaxRowLimit = 4` the row-cap check never
holds, as `rows` stays 0, and the response holds all 6 values, not min(4, 6). -/
theorem Emitter.emit_row_cap_not_global :
    ∃ resp, Emitter.Emit { MaxRowLimit := 4, Epoch := "" } ⟨[]⟩ EmitTestResults
        = .returned ⟨[resp]⟩ ∧
      resp.valueCount = 6 ∧ totalRows EmitTestResults = 6 ∧
      resp.valueCount ≠ min 4 (totalRows EmitTestResults) :=
  ⟨_, rfl, by decide, by decide, by decide⟩

/-- C7: on an error-free stream with `MaxRowLimit > 0`, when the run reaches
`row` (no conversion up to it fails) and the row-cap check
`rows+len(s.Values) >= MaxRowLimit` holds at `row` and at no earlier row (every
series before has fewer rows than the cap, and so has the part of the series
before `row`), `Emitter.Emit` writes one response that ends at `row`: the
statements before are rendered in full, the last result is that of the
statement of `row`, its last entry is the series of `row` with `partial = true`
and `row` as its last value, and nothing after `row` is rendered. -/
theorem Emitter.emit_capped_ends_at_row (e : Emitter) (w : ResponseWriter)
    (pre : List ResultSet) (stmt : ResultSet) (post : List ResultSet)
    (spre : List Series) (ser : Series) (spost : List Series)
    (rpre : List Row) (row : Row) (rpost : List Row)
    (hpos : e.MaxRowLimit > 0)
    (hfree : ErrorFree (pre ++ stmt :: post))
    (hseries : stmt.SeriesCh = spre ++ ser :: spost)
    (hrows : ser.RowCh = rpre ++ row :: rpost)
    (hconv_pre : NoPanic e.Epoch pre)
    (hconv_spre : ∀ s ∈ spre, ∀ x ∈ s.RowCh, Convertible e.Epoch x)
    (hconv_rows : ∀ x ∈ rpre ++ [row], Convertible e.Epoch x)
    (hfire : (0 : Int) + ((rpre.length + 1 : Nat) : Int) ≥ e.MaxRowLimit)
    (hrpre : (rpre.length : Int) < e.MaxRowLimit)
    (hspre : ∀ s ∈ spre, (s.RowCh.length : Int) < e.MaxRowLimit)
    (hpre : ∀ st ∈ pre, ∀ s ∈ st.SeriesCh, (s.RowCh.length : Int) < e.MaxRowLimit) :
    Emitter.Emit e w (pre ++ stmt :: post)
      = .returned ⟨w.written ++
          [⟨pre.map (ResultSet.fullResult e.Epoch) ++
              [{ StatementID := stmt.ID, Messages := stmt.Messages, Err := none,
                 Partial := false,
                 Series := spre.map (Series.fullEntry e.Epoch) ++
                   [ser.entry ((rpre ++ [row]).map (emittedValues e.Epoch)) true] }]⟩]⟩ := by
  have hstmt : stmt ∈ pre ++ stmt :: post := by simp
  have hser : ser ∈ stmt.SeriesCh := by simp [hseries]
  have hpre_sound : ∀ st ∈ pre, st.Err = none ∧ ∀ s ∈ st.SeriesCh, s.Sound e := by
    intro st hst
    have hmem : st ∈ pre ++ stmt :: post := List.mem_append_left _ hst
    refine ⟨(hfree st hmem).1, fun s hs => ⟨((hfree st hmem).2 s hs).1, fun x hx =>
      ⟨((hfree st hmem).2 s hs).2 x hx, hconv_pre st hst s hs x hx⟩, ?_⟩⟩
    intro hc
    have := hpre st hst s hs
    omega
  have hspre_sound : ∀ s ∈ spre, s.Sound e := by
    intro s hs
    have hmem : s ∈ stmt.SeriesCh := by simp [hseries, hs]
    refine ⟨((hfree stmt hstmt).2 s hmem).1, fun x hx =>
      ⟨((hfree stmt hstmt).2 s hmem).2 x hx, hconv_spre s hs x hx⟩, ?_⟩
    intro hc
    have := hspre s hs
    omega
  have hrow_ok : ∀ x ∈ rpre ++ [row], x.Err = none ∧ Convertible e.Epoch x := by
    intro x hx
    have hmem : x ∈ ser.RowCh := by
      rw [hrows]
      simp only [List.mem_append, List.mem_singleton, List.mem_cons] at hx ⊢
      tauto
    exact ⟨((hfree stmt hstmt).2 ser hser).2 x hmem, hconv_rows x hx⟩
  unfold Emitter.Emit
  rw [Emitter.resultsLoop_append e pre _ _ hpre_sound, Emitter.resultsLoop]
  simp only [(hfree stmt hstmt).1, ne_eq, not_true_eq_false, if_false]
  rw [hseries, Emitter.seriesLoop_append e spre _ _ hspre_sound, Emitter.seriesLoop]
  simp only [((hfree stmt hstmt).2 ser hser).1]
  rw [hrows, Emitter.rowLoop_capped e rpre row rpost _ hrow_ok hpos
    (by simpa using hrpre) (by simp only [List.length_nil]; push_cast at hfire ⊢; omega)]
  simp [ResponseWriter.WriteResponse, Series.entry]

/-- Witness of C7: the stream of `emitter_test.go` with `MaxRowLimit = 2`; the
check holds at the second row of the first series. -/
theorem Emitter.emit_capped_ends_at_row_witness :
    Emitter.Emit { MaxRowLimit := 2, Epoch := "" } ⟨[]⟩ EmitTestResults
      = .returned ⟨[⟨[{ StatementID := 0, Messages := [], Err := none, Partial := false,
                        Series := [{ Name := "cpu", Tags := [("host", "server01")],
                                     Columns := ["time", "value"],
                                     Values := [[Value.time 0, Value.float 2],
                                                [Value.time 10000000000, Value.float 5]],
                                     Partial := true }] }]⟩]⟩ :=
  Emitter.emit_capped_ends_at_row { MaxRowLimit := 2, Epoch := "" } ⟨[]⟩
    [] testStatement0 [testStatement1]
    [] testSeries01 [testSeries02]
    [⟨[Value.time 0, Value.float 2], none⟩]
    ⟨[Value.time 10000000000, Value.float 5], none⟩
    [⟨[Value.time 20000000000, Value.float 7], none⟩]
    (by decide) (by decide) rfl rfl (by decide) (by simp) (by decide)
    (by decide) (by decide) (by simp) (by simp)

/-- C10, the code at a failing input: with the second series of a statement in
error, the result carries the error and still holds the entry rendered for the
first series. -/
theorem Emitter.emit_series_error_keeps_series :
    Emitter.Emit { MaxRowLimit := 0, Epoch := "" } ⟨[]⟩ seriesErrorStream
      = .returned ⟨[⟨[{ StatementID := 0, Messages := [], Err := some "boom",
                        Partial := false,
                        Series := [{ Name := "cpu", Tags := [("host", "server01")],
                                     Columns := ["time", "value"],
                                     Values := [[Value.time 0, Value.float 2]],
                                     Partial := false }] }]⟩]⟩ := by
  decide

/-- A row in error, away from a failing conversion: when the loop `RESULTS`
reaches a statement (every earlier iteration
ends at the next one: no break by the row cap before), the series of the
statement before `ser` are rendered in full, and the rows of `ser` before `row`
are read without error and without the cap check holding, then with `row` in
error the result for the statement carries the error of `row` and no series at
all, and the loop goes on with the next statement: when no conversion of a
later statement fails, the response written holds right after that result a
result for the next statement. -/
theorem Emitter.emit_row_error (e : Emitter) (w : ResponseWriter)
    (pre : List ResultSet) (stmt : ResultSet) (post : List ResultSet)
    (spre : List Series) (ser : Series) (spost : List Series)
    (rpre : List Row) (row : Row) (rpost : List Row) (err : String)
    (hpre : ∀ st ∈ pre, ∃ r, Emitter.statementExit e st = .next r)
    (hstmt : stmt.Err = none)
    (hseries : stmt.SeriesCh = spre ++ ser :: spost)
    (hspre : ∀ s ∈ spre, s.Sound e)
    (hser : ser.Err = none)
    (hrows : ser.RowCh = rpre ++ row :: rpost)
    (hrpre : ∀ x ∈ rpre, x.Err = none ∧ Convertible e.Epoch x)
    (hcap : ¬ (e.MaxRowLimit > 0 ∧ (rpre.length : Int) ≥ e.MaxRowLimit))
    (herr : row.Err = some err)
    (hpost : NoPanic e.Epoch post) :
    ∃ more,
      Emitter.Emit e w (pre ++ stmt :: post)
        = .returned ⟨w.written ++
            [⟨pre.map (Emitter.statementResult e) ++
                [{ StatementID := stmt.ID, Messages := stmt.Messages, Err := some err,
                   Series := [], Partial := false }] ++ more⟩]⟩ ∧
      ∀ nxt rest, post = nxt :: rest →
        ∃ r more1, more = r :: more1 ∧ r.StatementID = nxt.ID ∧ r.Messages = nxt.Messages := by
  have hexit : Emitter.statementExit e stmt
      = .next { StatementID := stmt.ID, Messages := stmt.Messages, Err := some err,
                Series := [], Partial := false } := by
    unfold Emitter.statementExit
    rw [if_neg (by simp [hstmt]), hseries, Emitter.seriesLoop_append e spre _ _ hspre,
      Emitter.seriesLoop]
    simp only [hser]
    rw [hrows, Emitter.rowLoop_rowErr e rpre row rpost err herr _ hrpre
      (by simpa using hcap)]
    rfl
  obtain ⟨more, hmore, hnext⟩ := Emitter.resultsLoop_returns e post
    ⟨pre.map (Emitter.statementResult e) ++
      [{ StatementID := stmt.ID, Messages := stmt.Messages, Err := some err,
         Series := [], Partial := false }]⟩ hpost
  refine ⟨more, ?_, hnext⟩
  unfold Emitter.Emit
  rw [Emitter.resultsLoop_pass e pre _ _ hpre, Emitter.resultsLoop_cons, hexit]
  simp only [List.nil_append]
  rw [hmore]
  simp [ResponseWriter.WriteResponse]

/-- Instance of `Emitter.emit_row_error`: the second row of the second series of a statement is in
error; the statement stands between the two statements of `emitter_test.go`. -/
theorem Emitter.emit_row_error_witness :
    ∃ more,
      Emitter.Emit { MaxRowLimit := 0, Epoch := "" } ⟨[]⟩
          ([testStatement0] ++ rowErrorInSecondSeries :: [testStatement1])
        = .returned ⟨[] ++
            [⟨[testStatement0].map
                  (Emitter.statementResult { MaxRowLimit := 0, Epoch := "" }) ++
                [{ StatementID := 0, Messages := [⟨"warning", "deprecated"⟩],
                   Err := some "bad row", Series := [], Partial := false }] ++ more⟩]⟩ ∧
      ∀ nxt rest, [testStatement1] = nxt :: rest →
        ∃ r more1, more = r :: more1 ∧ r.StatementID = nxt.ID ∧ r.Messages = nxt.Messages :=
  Emitter.emit_row_error { MaxRowLimit := 0, Epoch := "" } ⟨[]⟩
    [testStatement0] rowErrorInSecondSeries [testStatement1]
    [testSeries01]
    { Name := "cpu", Tags := ⟨[("host", "server02")]⟩, Columns := ["time", "value"],
      Err := none,
      RowCh := [ ⟨[Value.time 0, Value.float 8], none⟩,
                 ⟨[Value.time 10000000000, Value.float 9], some "bad row"⟩,
                 ⟨[Value.time 20000000000, Value.float 10], none⟩ ] }
    [testSeriesDatabases]
    [⟨[Value.time 0, Value.float 8], none⟩]
    ⟨[Value.time 10000000000, Value.float 9], some "bad row"⟩
    [⟨[Value.time 20000000000, Value.float 10], none⟩]
    "bad row"
    (by
      intro st hst
      rw [List.mem_singleton] at hst
      subst hst
      exact ⟨_, rfl⟩)
    rfl rfl (by decide) rfl rfl (by decide) (by decide) rfl (by decide)

/-- One result per statement, away from a failing conversion: with
`MaxRowLimit = 0`, on streams whose conversions do not fail,
`Emitter.Emit` writes one response that holds one result per statement, in
source order, with the ID and the messages of the statement; and for two
streams, whenever the statements at a position are the same, so are the results
at that position, whatever the other statements are. -/
theorem Emitter.emit_statement_local (e : Emitter) (w1 w2 : ResponseWriter)
    (results1 results2 : List ResultSet) (h0 : e.MaxRowLimit = 0)
    (hconv1 : NoPanic e.Epoch results1) (hconv2 : NoPanic e.Epoch results2) :
    ∃ resp1 resp2,
      Emitter.Emit e w1 results1 = .returned ⟨w1.written ++ [resp1]⟩ ∧
      Emitter.Emit e w2 results2 = .returned ⟨w2.written ++ [resp2]⟩ ∧
      List.Forall₂ (fun stmt r => r.StatementID = stmt.ID ∧ r.Messages = stmt.Messages)
        results1 resp1.Results ∧
      List.Forall₂ (fun stmt r => r.StatementID = stmt.ID ∧ r.Messages = stmt.Messages)
        results2 resp2.Results ∧
      ∀ i : Nat, results1[i]? = results2[i]? → resp1.Results[i]? = resp2.Results[i]? := by
  have hL : ¬ e.MaxRowLimit > 0 := by omega
  have hrun : ∀ (w : ResponseWriter) (results : List ResultSet), NoPanic e.Epoch results →
      Emitter.Emit e w results
        = .returned ⟨w.written ++ [⟨results.map (Emitter.statementResult e)⟩]⟩ := by
    intro w results hconv
    have hpass := Emitter.resultsLoop_pass e results [] ⟨[]⟩
      (fun st hst => by
        obtain ⟨r, hr, _⟩ := Emitter.statementExit_next e hL st (hconv st hst)
        exact ⟨r, hr⟩)
    rw [List.append_nil] at hpass
    unfold Emitter.Emit
    rw [hpass]
    simp [Emitter.resultsLoop, ResponseWriter.WriteResponse]
  have hshape : ∀ (results : List ResultSet), NoPanic e.Epoch results →
      List.Forall₂ (fun stmt r => r.StatementID = stmt.ID ∧ r.Messages = stmt.Messages)
        results (results.map (Emitter.statementResult e)) := by
    intro results
    induction results with
    | nil => intro _; exact List.Forall₂.nil
    | cons stmt rest ih =>
      intro hconv
      obtain ⟨r, hr, hid, hmsg⟩ := Emitter.statementExit_next e hL stmt
        (hconv stmt (List.mem_cons_self _ _))
      refine List.Forall₂.cons ?_ (ih (fun x hx => hconv x (List.mem_cons_of_mem _ hx)))
      simp only [Emitter.statementResult, hr]
      exact ⟨hid, hmsg⟩
  refine ⟨⟨results1.map (Emitter.statementResult e)⟩,
    ⟨results2.map (Emitter.statementResult e)⟩, hrun w1 results1 hconv1,
    hrun w2 results2 hconv2, hshape results1 hconv1, hshape results2 hconv2, ?_⟩
  intro i hi
  simp only [List.getElem?_map, hi]

/-- Instance of `Emitter.emit_statement_local`: the stream of `emitter_test.go` and a stream that differs
from it at position 0, by a statement with a row in error, and holds the same
statement at position 1. -/
theorem Emitter.emit_statement_local_witness :
    ∃ resp1 resp2,
      Emitter.Emit { MaxRowLimit := 0, Epoch := "" } ⟨[]⟩ EmitTestResults
        = .returned ⟨[] ++ [resp1]⟩ ∧
      Emitter.Emit { MaxRowLimit := 0, Epoch := "" } ⟨[]⟩
          [rowErrorInSecondSeries, testStatement1]
        = .returned ⟨[] ++ [resp2]⟩ ∧
      List.Forall₂ (fun stmt r => r.StatementID = stmt.ID ∧ r.Messages = stmt.Messages)
        EmitTestResults resp1.Results ∧
      List.Forall₂ (fun stmt r => r.StatementID = stmt.ID ∧ r.Messages = stmt.Messages)
        [rowErrorInSecondSeries, testStatement1] resp2.Results ∧
      ∀ i : Nat, EmitTestResults[i]? = [rowErrorInSecondSeries, testStatement1][i]? →
        resp1.Results[i]? = resp2.Results[i]? :=
  Emitter.emit_statement_local { MaxRowLimit := 0, Epoch := "" } ⟨[]⟩ ⟨[]⟩
    EmitTestResults [rowErrorInSecondSeries, testStatement1] rfl (by decide) (by decide)

/-! ## Claims on `epochConverter` -/

theorem epochDivisor_of_unit (epoch : String) (D : Nat) (h : (epoch, D) ∈ unitDivisors) :
    epochDivisor epoch = (D : Int) ∧ 0 < D := by
  simp only [unitDivisors, List.mem_cons, Prod.mk.injEq, List.mem_singleton, List.mem_nil_iff,
    or_false] at h
  rcases h with ⟨h1, h2⟩ | ⟨h1, h2⟩ | ⟨h1, h2⟩ | ⟨h1, h2⟩ | ⟨h1, h2⟩ <;>
    subst h1 <;> subst h2 <;> exact ⟨by decide, by norm_num⟩

theorem wrapInt64_of_range (x : Int) (h1 : -2 ^ 63 ≤ x) (h2 : x < 2 ^ 63) : wrapInt64 x = x := by
  unfold wrapInt64
  omega

theorem tdiv_eq_floor (T : Int) (D : Nat) (hT : 0 ≤ T) :
    Int.tdiv T (D : Int) = ⌊(T : ℚ) / (D : ℚ)⌋ := by
  rw [Rat.floor_intCast_div_natCast]
  exact Int.tdiv_eq_ediv hT (Int.ofNat_nonneg D)

theorem tdiv_eq_ceil (T : Int) (D : Nat) (hT : T ≤ 0) :
    Int.tdiv T (D : Int) = ⌈(T : ℚ) / (D : ℚ)⌉ := by
  have h := tdiv_eq_floor (-T) D (by omega)
  rw [Int.neg_tdiv] at h
  have hc : ⌊((-T : Int) : ℚ) / (D : ℚ)⌋ = -⌈(T : ℚ) / (D : ℚ)⌉ := by
    rw [Int.cast_neg, neg_div, Int.floor_neg]
  rw [hc] at h
  exact neg_injective h

/-- C8, counterexample: with unit `u` the timestamp of -1 ns becomes 0, and
floor(-1 / 1000) is -1. -/
theorem epochConverter_floor_counterexample :
    epochConverter "u" ⟨[Value.time (-1), Value.float 2], none⟩
        = some ⟨[Value.int 0, Value.float 2], none⟩ ∧
      ⌊((-1 : Int) : ℚ) / ((1000 : Nat) : ℚ)⌋ = -1 ∧
      epochConverter "u" ⟨[Value.time (-1), Value.float 2], none⟩
        ≠ some ⟨[Value.int ⌊((-1 : Int) : ℚ) / ((1000 : Nat) : ℚ)⌋, Value.float 2], none⟩ := by
  have hfloor : ⌊((-1 : Int) : ℚ) / ((1000 : Nat) : ℚ)⌋ = -1 := by
    rw [Rat.floor_intCast_div_natCast]; decide
  have hrun : epochConverter "u" ⟨[Value.time (-1), Value.float 2], none⟩
      = some ⟨[Value.int 0, Value.float 2], none⟩ := by decide
  refine ⟨hrun, hfloor, ?_⟩
  rw [hrun, hfloor]
  decide

/-- C8, amended: for each unit token among u, ms, s, m, h with divisor `D` and
each row whose first value is a timestamp of `T` nanoseconds, `T` in the range
of `int64`, the converter replaces the first value by the integer quotient of
`T` by `D` rounded toward zero: floor(T / D) when `T ≥ 0`, ceil(T / D) when
`T ≤ 0`. -/
theorem epochConverter_time (epoch : String) (D : Nat) (T : Int) (rest : List Value)
    (err : Error) (hD : (epoch, D) ∈ unitDivisors) (hlo : -2 ^ 63 ≤ T) (hhi : T < 2 ^ 63) :
    epochConverter epoch ⟨Value.time T :: rest, err⟩
        = some ⟨Value.int (Int.tdiv T (D : Int)) :: rest, err⟩ ∧
      (0 ≤ T → Int.tdiv T (D : Int) = ⌊(T : ℚ) / (D : ℚ)⌋) ∧
      (T ≤ 0 → Int.tdiv T (D : Int) = ⌈(T : ℚ) / (D : ℚ)⌉) := by
  refine ⟨?_, tdiv_eq_floor T D, tdiv_eq_ceil T D⟩
  simp only [epochConverter, UnixNano, wrapInt64_of_range T hlo hhi,
    (epochDivisor_of_unit epoch D hD).1]

/-- Witness of C8: 20 s and -1500 ns in milliseconds. -/
theorem epochConverter_time_witness :
    (epochConverter "ms" ⟨Value.time 20000000000 :: [Value.float 7], none⟩
        = some ⟨Value.int (Int.tdiv 20000000000 ((10 ^ 6 : Nat) : Int)) :: [Value.float 7], none⟩ ∧
      ((0 : Int) ≤ 20000000000 → Int.tdiv 20000000000 ((10 ^ 6 : Nat) : Int)
        = ⌊((20000000000 : Int) : ℚ) / ((10 ^ 6 : Nat) : ℚ)⌋) ∧
      ((20000000000 : Int) ≤ 0 → Int.tdiv 20000000000 ((10 ^ 6 : Nat) : Int)
        = ⌈((20000000000 : Int) : ℚ) / ((10 ^ 6 : Nat) : ℚ)⌉)) :=
  epochConverter_time "ms" (10 ^ 6) 20000000000 [Value.float 7] none
    (by simp [unitDivisors]) (by norm_num) (by norm_num)

/-- C9: for every unit token and every row with at least one value the
converter returns a row with the same number of values, the same value at every
index from 1 on and the same error; the row is returned as it is when its first
value is not a timestamp. -/
theorem epochConverter_frame (epoch : String) (row : Row) (h : row.Values ≠ []) :
    ∃ row1, epochConverter epoch row = some row1 ∧
      row1.Values.length = row.Values.length ∧
      (∀ i, 1 ≤ i → row1.Values[i]? = row.Values[i]?) ∧
      row1.Err = row.Err ∧
      ((∀ T, row.Values.head? ≠ some (Value.time T)) → row1 = row) := by
  obtain ⟨vals, err⟩ := row
  cases vals with
  | nil => exact absurd rfl h
  | cons v rest =>
    cases v with
    | time ts =>
      refine ⟨_, rfl, rfl, ?_, rfl, ?_⟩
      · intro i hi
        obtain ⟨j, rfl⟩ : ∃ j, i = j + 1 := ⟨i - 1, by omega⟩
        simp
      · intro hT
        exact absurd rfl (hT ts)
    | int _ => exact ⟨_, rfl, rfl, fun _ _ => rfl, rfl, fun _ => rfl⟩
    | float _ => exact ⟨_, rfl, rfl, fun _ _ => rfl, rfl, fun _ => rfl⟩
    | str _ => exact ⟨_, rfl, rfl, fun _ _ => rfl, rfl, fun _ => rfl⟩
    | bool _ => exact ⟨_, rfl, rfl, fun _ _ => rfl, rfl, fun _ => rfl⟩
    | null => exact ⟨_, rfl, rfl, fun _ _ => rfl, rfl, fun _ => rfl⟩

/-- Witness of C9: the first row of the test scenario, in seconds. -/
theorem epochConverter_frame_witness :
    ∃ row1, epochConverter "s" ⟨[Value.time 10000000000, Value.float 5], none⟩ = some row1 ∧
      row1.Values.length
        = (⟨[Value.time 10000000000, Value.float 5], none⟩ : Row).Values.length ∧
      (∀ i, 1 ≤ i → row1.Values[i]?
        = (⟨[Value.time 10000000000, Value.float 5], none⟩ : Row).Values[i]?) ∧
      row1.Err = (⟨[Value.time 10000000000, Value.float 5], none⟩ : Row).Err ∧
      ((∀ T, (⟨[Value.time 10000000000, Value.float 5], none⟩ : Row).Values.head?
          ≠ some (Value.time T)) →
        row1 = ⟨[Value.time 10000000000, Value.float 5], none⟩) :=
  epochConverter_frame "s" ⟨[Value.time 10000000000, Value.float 5], none⟩ (by simp)

/-! ## Claims on `ChunkedEmitter` -/

/-- The writes of a run are those made for its statements one by one. -/
theorem ChunkedEmitter.emit_by_statement (e : ChunkedEmitter) (w : ResponseWriter)
    (results : List ResultSet) (h : NoPanic e.Epoch results) :
    ChunkedEmitter.Emit e w results
      = .returned ⟨w.written ++ (results.map (ChunkedEmitter.writesOf e)).flatten⟩ := by
  rw [ChunkedEmitter.emit_eq e w results h]
  have hmap : results.map (statementWrites e) = results.map (ChunkedEmitter.writesOf e) :=
    List.map_congr_left fun stmt hstmt =>
      (ChunkedEmitter.emit_single e stmt (h stmt hstmt)).symm
  rw [hmap]

/-- The block written for a series obeys the chunk size. -/
theorem seriesBlock_sized (e : ChunkedEmitter) (hC : e.ChunkSize > 0) (stmt : ResultSet)
    (msgs : List Message) (ser : Series) (hasNext : Bool) :
    SizedBlock e stmt ser (seriesBlock e stmt msgs ser hasNext) := by
  refine ⟨(cut e.ChunkSize [] (ser.RowCh.map (emittedValues e.Epoch))).1,
    (cut e.ChunkSize [] (ser.RowCh.map (emittedValues e.Epoch))).2, ?_, ?_, ?_, ?_, ?_⟩
  · refine List.rel_append ((flushWrites_forall₂ stmt ser _ msgs).imp ?_)
      (List.Forall₂.cons ⟨_, _, _, rfl⟩ List.Forall₂.nil)
    rintro resp piece ⟨m, rfl⟩
    exact ⟨m, true, true, rfl⟩
  · have := cut_flatten e.ChunkSize (ser.RowCh.map (emittedValues e.Epoch)) []
    simpa using this
  · exact cut_pieces_length e.ChunkSize hC _ [] (by simp only [List.length_nil]; omega)
  · exact cut_last_length e.ChunkSize hC _ [] (by simp only [List.length_nil]; omega)
  · intro hne
    exact List.length_pos.mpr
      (cut_last_ne_nil e.ChunkSize _ [] (Or.inr (by simpa using hne)))

/-- C2, counterexample: with `ChunkSize = 2` a series without rows is written
as one write that carries no value. -/
theorem ChunkedEmitter.emit_empty_series_counterexample :
    ChunkedEmitter.Emit { ChunkSize := 2, Epoch := "" } ⟨[]⟩ emptySeriesStream
      = .returned ⟨[⟨[{ StatementID := 0, Messages := [], Err := none, Partial := false,
                        Series := [{ Name := "cpu", Tags := [], Columns := ["time", "value"],
                                     Values := [], Partial := false }] }]⟩]⟩ := by
  decide

/-- C2, amended: with `ChunkSize = C > 0`, on a stream whose conversions do not
fail, the writes are those made for the statements one by one, and the writes
for a statement whose first series is not in error are, series by series in
source order, the writes for that series: each but the last carries exactly `C`
values, and the last carries the remaining `r ≤ C` values, `0 < r` if the
series has a row. -/
theorem ChunkedEmitter.emit_chunk_sizes (e : ChunkedEmitter) (w : ResponseWriter)
    (results : List ResultSet) (hC : e.ChunkSize > 0) (hconv : NoPanic e.Epoch results) :
    ChunkedEmitter.Emit e w results
        = .returned ⟨w.written ++ (results.map (ChunkedEmitter.writesOf e)).flatten⟩ ∧
      ∀ stmt ∈ results, ∀ s0 more, stmt.SeriesCh = s0 :: more → s0.Err = none →
        ∃ blocks : List (List Response),
          ChunkedEmitter.writesOf e stmt = blocks.flatten ∧
          List.Forall₂ (SizedBlock e stmt) stmt.SeriesCh blocks := by
  refine ⟨ChunkedEmitter.emit_by_statement e w results hconv, ?_⟩
  intro stmt hstmt s0 more hs herr
  refine ⟨seriesBlocks e stmt stmt.Messages stmt.SeriesCh, ?_, ?_⟩
  · unfold ChunkedEmitter.writesOf
    rw [ChunkedEmitter.emit_single e stmt (hconv stmt hstmt)]
    simp [statementWrites, hs, herr]
  · refine (seriesBlocks_forall₂ e stmt stmt.SeriesCh stmt.Messages).imp ?_
    rintro ser block ⟨m, hasNext, rfl⟩
    exact seriesBlock_sized e hC stmt m ser hasNext

/-- Witness of C2: statement 0 of the stream of `emitter_test.go` with
`ChunkSize = 2`. -/
theorem ChunkedEmitter.emit_chunk_sizes_witness :
    ({ ChunkSize := 2, Epoch := "" } : ChunkedEmitter).ChunkSize > 0 ∧
    NoPanic "" EmitTestResults ∧
    ∃ blocks : List (List Response),
      ChunkedEmitter.writesOf { ChunkSize := 2, Epoch := "" } testStatement0 = blocks.flatten ∧
      List.Forall₂ (SizedBlock { ChunkSize := 2, Epoch := "" } testStatement0)
        testStatement0.SeriesCh blocks :=
  ⟨by decide, by decide,
   (ChunkedEmitter.emit_chunk_sizes { ChunkSize := 2, Epoch := "" } ⟨[]⟩ EmitTestResults
      (by decide) (by decide)).2 testStatement0 (by decide) testSeries01 [testSeries02]
      rfl rfl⟩

/-- The block written for a series carries the series flag on every write but
the last. -/
theorem seriesBlock_flagged (e : ChunkedEmitter) (stmt : ResultSet)
    (msgs : List Message) (ser : Series) (hasNext : Bool) :
    FlaggedBlock e stmt ser (seriesBlock e stmt msgs ser hasNext) := by
  refine ⟨_, (cut e.ChunkSize [] (ser.RowCh.map (emittedValues e.Epoch))).1,
    (cut e.ChunkSize [] (ser.RowCh.map (emittedValues e.Epoch))).2, _, hasNext, rfl,
    flushWrites_forall₂ stmt ser _ msgs, ?_, ?_⟩
  · have := cut_flatten e.ChunkSize (ser.RowCh.map (emittedValues e.Epoch)) []
    simpa using this
  · intro p hp
    have hp1 := List.mem_of_mem_tail hp
    rw [List.mem_append, List.mem_singleton] at hp1
    rcases hp1 with hp1 | rfl
    · exact cut_nil_pieces_ne_nil e.ChunkSize _ p hp1
    · cases hrows : ser.RowCh.map (emittedValues e.Epoch) with
      | nil => simp [hrows, cut] at hp
      | cons v rest => exact cut_last_ne_nil e.ChunkSize _ [] (Or.inr (by simp))

/-- The partial flags, away from a failing conversion: on a stream whose
conversions do not fail, the writes are those made for
the statements one by one. Of the writes for a statement whose first series is
not in error, every one but the last has its result flagged as partial and the
last has not (a later write of the statement follows exactly those flagged);
and these writes are, series by series, a block in which every write but the
last has its entry flagged as partial and the last has not, each write after
the first of a block carrying further rows of the series (a later write with
rows of the series follows exactly those flagged). -/
theorem ChunkedEmitter.emit_partial_flags (e : ChunkedEmitter) (w : ResponseWriter)
    (results : List ResultSet) (hconv : NoPanic e.Epoch results) :
    ChunkedEmitter.Emit e w results
        = .returned ⟨w.written ++ (results.map (ChunkedEmitter.writesOf e)).flatten⟩ ∧
      ∀ stmt ∈ results, ∀ s0 more, stmt.SeriesCh = s0 :: more → s0.Err = none →
        (∃ sinit slast,
          ChunkedEmitter.writesOf e stmt = sinit ++ [slast] ∧
          (∀ resp ∈ sinit, ∀ r ∈ resp.Results, r.Partial = true) ∧
          (∀ r ∈ slast.Results, r.Partial = false)) ∧
        (∃ blocks : List (List Response),
          ChunkedEmitter.writesOf e stmt = blocks.flatten ∧
          List.Forall₂ (FlaggedBlock e stmt) stmt.SeriesCh blocks) := by
  refine ⟨ChunkedEmitter.emit_by_statement e w results hconv, ?_⟩
  intro stmt hstmt s0 more hs herr
  have hw : ChunkedEmitter.writesOf e stmt
      = (seriesBlocks e stmt stmt.Messages stmt.SeriesCh).flatten := by
    unfold ChunkedEmitter.writesOf
    rw [ChunkedEmitter.emit_single e stmt (hconv stmt hstmt)]
    simp [statementWrites, hs, herr]
  refine ⟨?_, seriesBlocks e stmt stmt.Messages stmt.SeriesCh, hw, ?_⟩
  · rw [hw, hs]
    exact seriesBlocks_partial e stmt s0 more stmt.Messages
  · refine (seriesBlocks_forall₂ e stmt stmt.SeriesCh stmt.Messages).imp ?_
    rintro ser block ⟨m, hasNext, rfl⟩
    exact seriesBlock_flagged e stmt m ser hasNext

/-- Instance of `ChunkedEmitter.emit_partial_flags`: statement 0 of the stream of `emitter_test.go` with
`ChunkSize = 2`. -/
theorem ChunkedEmitter.emit_partial_flags_witness :
    NoPanic "" EmitTestResults ∧
    ((∃ sinit slast,
        ChunkedEmitter.writesOf { ChunkSize := 2, Epoch := "" } testStatement0
          = sinit ++ [slast] ∧
        (∀ resp ∈ sinit, ∀ r ∈ resp.Results, r.Partial = true) ∧
        (∀ r ∈ slast.Results, r.Partial = false)) ∧
      (∃ blocks : List (List Response),
        ChunkedEmitter.writesOf { ChunkSize := 2, Epoch := "" } testStatement0
          = blocks.flatten ∧
        List.Forall₂ (FlaggedBlock { ChunkSize := 2, Epoch := "" } testStatement0)
          testStatement0.SeriesCh blocks)) :=
  ⟨by decide,
   (ChunkedEmitter.emit_partial_flags { ChunkSize := 2, Epoch := "" } ⟨[]⟩ EmitTestResults
      (by decide)).2 testStatement0 (by decide) testSeries01 [testSeries02] rfl rfl⟩

/-- C4, counterexample: on the stream of `emitter_test.go` with `ChunkSize = 2`
four writes are made, and the third, the last one of statement 0, carries no
partial flag at either level. -/
theorem ChunkedEmitter.emit_unflagged_write_counterexample :
    (ChunkedEmitter.Emit { ChunkSize := 2, Epoch := "" } ⟨[]⟩ EmitTestResults).writer.written.length
        = 4 ∧
      (ChunkedEmitter.Emit { ChunkSize := 2, Epoch := "" } ⟨[]⟩ EmitTestResults).writer.written[2]?
        = some ⟨[{ StatementID := 0, Messages := [], Err := none, Partial := false,
                   Series := [{ Name := "cpu", Tags := [("host", "server02")],
                                Columns := ["time", "value"],
                                Values := [[Value.time 0, Value.float 8]],
                                Partial := false }] }]⟩ := by
  decide

/-- Within the writes of a run of series, every result but the last is flagged
as partial, and the last write carries no partial flag at either level. -/
theorem seriesBlocks_last_unflagged (e : ChunkedEmitter) (stmt : ResultSet) (ser : Series)
    (more : List Series) :
    ∀ (msgs : List Message), ∃ sinit slast,
      (seriesBlocks e stmt msgs (ser :: more)).flatten = sinit ++ [slast] ∧
      (∀ resp ∈ sinit, ∀ r ∈ resp.Results, r.Partial = true) ∧
      (∀ r ∈ slast.Results, r.Partial = false ∧ ∀ s ∈ r.Series, s.Partial = false) := by
  induction more generalizing ser with
  | nil =>
    intro msgs
    refine ⟨_, _, by simp only [seriesBlocks, seriesBlock, List.flatten_cons,
      List.flatten_nil, List.append_nil]; rfl, flushWrites_partial stmt ser _ msgs, ?_⟩
    intro r hr
    simp only [chunkResponse, List.mem_singleton] at hr
    subst hr
    refine ⟨rfl, ?_⟩
    intro s hs
    simp only [List.mem_singleton] at hs
    subst hs
    rfl
  | cons next more1 ih =>
    intro msgs
    obtain ⟨sinit, slast, heq, hinit, hlast⟩ := ih next (msgsAfter e msgs ser)
    refine ⟨seriesBlock e stmt msgs ser true ++ sinit, slast, ?_, ?_, hlast⟩
    · rw [seriesBlocks, List.flatten_cons, heq]
      simp
    · intro resp hresp r hr
      rw [List.mem_append] at hresp
      rcases hresp with hresp | hresp
      · simp only [seriesBlock, List.mem_append, List.mem_singleton] at hresp
        rcases hresp with hresp | rfl
        · exact flushWrites_partial stmt ser _ msgs resp hresp r hr
        · simp only [chunkResponse, List.mem_singleton] at hr
          subst hr
          rfl
      · exact hinit resp hresp r hr

/-- C4, amended: on a stream whose conversions do not fail, the writes are those
made for the statements one by one; the writes made for a statement are some
writes followed by a last one, every write before the last has `partial = true`
at the result level, and the last write of the statement carries no partial
flag, neither on its result nor on an entry, whatever statements follow. -/
theorem ChunkedEmitter.emit_partial_until_statement_end (e : ChunkedEmitter)
    (w : ResponseWriter) (results : List ResultSet) (hconv : NoPanic e.Epoch results) :
    ChunkedEmitter.Emit e w results
        = .returned ⟨w.written ++ (results.map (ChunkedEmitter.writesOf e)).flatten⟩ ∧
      ∀ stmt ∈ results, ∃ sinit slast,
        ChunkedEmitter.writesOf e stmt = sinit ++ [slast] ∧
        (∀ resp ∈ sinit, ∀ r ∈ resp.Results, r.Partial = true) ∧
        (∀ r ∈ slast.Results, r.Partial = false ∧ ∀ s ∈ r.Series, s.Partial = false) := by
  refine ⟨ChunkedEmitter.emit_by_statement e w results hconv, ?_⟩
  intro stmt hstmt
  unfold ChunkedEmitter.writesOf
  rw [ChunkedEmitter.emit_single e stmt (hconv stmt hstmt)]
  unfold statementWrites
  cases hs : stmt.SeriesCh with
  | nil =>
    refine ⟨[], _, rfl, by simp, ?_⟩
    intro r hr
    simp only [List.mem_singleton] at hr
    subst hr
    exact ⟨rfl, by simp⟩
  | cons s0 more =>
    by_cases herr : s0.Err ≠ none
    · simp only [herr, ne_eq, not_false_eq_true, if_true]
      refine ⟨[], _, rfl, by simp, ?_⟩
      intro r hr
      simp only [List.mem_singleton] at hr
      subst hr
      exact ⟨rfl, by simp⟩
    · simp only [herr, if_false]
      exact seriesBlocks_last_unflagged e stmt s0 more stmt.Messages

/-- Witness of C4: statement 0 of the stream of `emitter_test.go` with
`ChunkSize = 2`. -/
theorem ChunkedEmitter.emit_partial_until_statement_end_witness :
    NoPanic "" EmitTestResults ∧
    ∃ sinit slast,
      ChunkedEmitter.writesOf { ChunkSize := 2, Epoch := "" } testStatement0
        = sinit ++ [slast] ∧
      (∀ resp ∈ sinit, ∀ r ∈ resp.Results, r.Partial = true) ∧
      (∀ r ∈ slast.Results, r.Partial = false ∧ ∀ s ∈ r.Series, s.Partial = false) :=
  ⟨by decide,
   (ChunkedEmitter.emit_partial_until_statement_end { ChunkSize := 2, Epoch := "" } ⟨[]⟩
      EmitTestResults (by decide)).2 testStatement0 (by decide)⟩

/-- C5, the code at a failing input: with `ChunkSize = 2`, a statement with a
message and two series of one row gets two writes, and both carry the
message. -/
theorem ChunkedEmitter.emit_messages_repeated :
    ChunkedEmitter.Emit { ChunkSize := 2, Epoch := "" } ⟨[]⟩ messageStream
      = .returned ⟨[
          ⟨[{ StatementID := 0, Messages := [⟨"warning", "deprecated"⟩], Err := none,
              Partial := true,
              Series := [{ Name := "cpu", Tags := [("host", "server01")],
                           Columns := ["time", "value"],
                           Values := [[Value.time 0, Value.float 2]], Partial := false }] }]⟩,
          ⟨[{ StatementID := 0, Messages := [⟨"warning", "deprecated"⟩], Err := none,
              Partial := false,
              Series := [{ Name := "cpu", Tags := [("host", "server02")],
                           Columns := ["time", "value"],
                           Values := [[Value.time 0, Value.float 8]],
                           Partial := false }] }]⟩]⟩ := by
  decide

/-- A statement without series, away from a failing conversion: on a
stream whose conversions do not fail, the writes are those made
for the statements one by one, and for a statement with no series and no error
exactly one write is made: one result with the statement's ID and messages, no
series, no error and `partial = false`. -/
theorem ChunkedEmitter.emit_no_series (e : ChunkedEmitter) (w : ResponseWriter)
    (results : List ResultSet) (hconv : NoPanic e.Epoch results) :
    ChunkedEmitter.Emit e w results
        = .returned ⟨w.written ++ (results.map (ChunkedEmitter.writesOf e)).flatten⟩ ∧
      ∀ stmt ∈ results, stmt.SeriesCh = [] → stmt.Err = none →
        ChunkedEmitter.writesOf e stmt
          = [⟨[{ StatementID := stmt.ID, Series := [], Messages := stmt.Messages,
                 Err := none, Partial := false }]⟩] := by
  refine ⟨ChunkedEmitter.emit_by_statement e w results hconv, ?_⟩
  intro stmt hstmt hs _
  unfold ChunkedEmitter.writesOf
  rw [ChunkedEmitter.emit_single e stmt (hconv stmt hstmt)]
  simp [statementWrites, hs]

/-- Instance of `ChunkedEmitter.emit_no_series`: a statement without series, then a statement with one. -/
theorem ChunkedEmitter.emit_no_series_witness :
    NoPanic "" noSeriesStream ∧
    ChunkedEmitter.writesOf { ChunkSize := 2, Epoch := "" } noSeriesStatement
      = [⟨[{ StatementID := 0, Series := [], Messages := [⟨"warning", "deprecated"⟩],
             Err := none, Partial := false }]⟩] :=
  ⟨by decide,
   (ChunkedEmitter.emit_no_series { ChunkSize := 2, Epoch := "" } ⟨[]⟩ noSeriesStream
      (by decide)).2 noSeriesStatement (by decide) rfl rfl⟩

/-- C14, the code at a failing input: for a statement that carries an error and
sends no series, the one result written has no error. -/
theorem ChunkedEmitter.emit_statement_error_dropped :
    ChunkedEmitter.Emit { ChunkSize := 2, Epoch := "" } ⟨[]⟩ statementErrorStream
      = .returned ⟨[⟨[{ StatementID := 0, Series := [], Messages := [], Err := none,
                        Partial := false }]⟩]⟩ := by
  decide

/-- A first series in error, away from a failing conversion:
on a stream whose conversions do not fail, the writes are those made
for the statements one by one, and for a statement whose first series carries
an error exactly one write is made: one result with the statement's ID, its
messages, that error and no series. -/
theorem ChunkedEmitter.emit_first_series_error (e : ChunkedEmitter) (w : ResponseWriter)
    (results : List ResultSet) (hconv : NoPanic e.Epoch results) :
    ChunkedEmitter.Emit e w results
        = .returned ⟨w.written ++ (results.map (ChunkedEmitter.writesOf e)).flatten⟩ ∧
      ∀ stmt ∈ results, ∀ s0 more err, stmt.SeriesCh = s0 :: more → s0.Err = some err →
        ChunkedEmitter.writesOf e stmt
          = [⟨[{ StatementID := stmt.ID, Series := [], Messages := stmt.Messages,
                 Err := some err, Partial := false }]⟩] := by
  refine ⟨ChunkedEmitter.emit_by_statement e w results hconv, ?_⟩
  intro stmt hstmt s0 more err hs herr
  unfold ChunkedEmitter.writesOf
  rw [ChunkedEmitter.emit_single e stmt (hconv stmt hstmt)]
  simp [statementWrites, hs, herr]

/-- Instance of `ChunkedEmitter.emit_first_series_error`: a statement whose first series is in error, then the second
statement of `emitter_test.go`. -/
theorem ChunkedEmitter.emit_first_series_error_witness :
    NoPanic "" firstSeriesErrorStream ∧
    ChunkedEmitter.writesOf { ChunkSize := 2, Epoch := "" } firstSeriesErrorStatement
      = [⟨[{ StatementID := 0, Series := [], Messages := [⟨"warning", "deprecated"⟩],
             Err := some "boom", Partial := false }]⟩] :=
  ⟨by decide,
   (ChunkedEmitter.emit_first_series_error { ChunkSize := 2, Epoch := "" } ⟨[]⟩
      firstSeriesErrorStream (by decide)).2 firstSeriesErrorStatement (by decide)
      _ _ "boom" rfl rfl⟩

/-- C16, the code at a failing input: with the second of three series in error,
three writes are made, one per series; the series in error and the one after it
are written as series, and no result carries the error. -/
theorem ChunkedEmitter.emit_later_series_error_ignored :
    ChunkedEmitter.Emit { ChunkSize := 2, Epoch := "" } ⟨[]⟩ midSeriesErrorStream
      = .returned ⟨[
          ⟨[{ StatementID := 0, Messages := [], Err := none, Partial := true,
              Series := [{ Name := "cpu", Tags := [("host", "server01")],
                           Columns := ["time", "value"],
                           Values := [[Value.time 0, Value.float 2]], Partial := false }] }]⟩,
          ⟨[{ StatementID := 0, Messages := [], Err := none, Partial := true,
              Series := [{ Name := "cpu", Tags := [("host", "server02")],
                           Columns := ["time", "value"],
                           Values := [], Partial := false }] }]⟩,
          ⟨[{ StatementID := 0, Messages := [], Err := none, Partial := false,
              Series := [{ Name := "cpu", Tags := [("host", "server03")],
                           Columns := ["time", "value"],
                           Values := [[Value.time 0, Value.float 8]],
                           Partial := false }] }]⟩]⟩ := by
  decide

/-- C18, the code at a failing input: on a row without values the converter
fails (`row.Values[0]` is out of range), and so does a run of either emitter
with an epoch unit on a stream that holds such a row. -/
theorem epochConverter_fails_on_empty_row :
    epochConverter "s" ⟨[], none⟩ = none ∧
      ChunkedEmitter.Emit { ChunkSize := 0, Epoch := "s" } ⟨[]⟩
          [{ ID := 0, Messages := [], Err := none,
             SeriesCh := [{ Name := "cpu", Tags := ⟨[]⟩, Columns := [], Err := none,
                            RowCh := [⟨[], none⟩] }] }]
        = .panicked ⟨[]⟩ ∧
      Emitter.Emit { MaxRowLimit := 0, Epoch := "s" } ⟨[]⟩
          [{ ID := 0, Messages := [], Err := none,
             SeriesCh := [{ Name := "cpu", Tags := ⟨[]⟩, Columns := [], Err := none,
                            RowCh := [⟨[], none⟩] }] }]
        = .panicked ⟨[]⟩ := by
  decide

/-- Without a positive chunk size each series is written by one write that
holds all its rows and the messages of the statement. -/
theorem seriesBlocks_unbounded (e : ChunkedEmitter) (hC : ¬ e.ChunkSize > 0) (stmt : ResultSet)
    (sers : List Series) :
    ∀ (msgs : List Message),
      List.Forall₂
        (fun ser resp => ∃ rflag,
          resp = chunkResponse stmt ser msgs (ser.RowCh.map (emittedValues e.Epoch)) false rflag)
        sers (seriesBlocks e stmt msgs sers).flatten := by
  induction sers with
  | nil => intro msgs; exact List.Forall₂.nil
  | cons ser more ih =>
    intro msgs
    have hcut := cut_of_nonpos e.ChunkSize hC (ser.RowCh.map (emittedValues e.Epoch)) []
    have hmsgs : msgsAfter e msgs ser = msgs := by simp [msgsAfter, hcut]
    have hblock : seriesBlock e stmt msgs ser (!more.isEmpty)
        = [chunkResponse stmt ser msgs (ser.RowCh.map (emittedValues e.Epoch)) false
            (!more.isEmpty)] := by
      simp [seriesBlock, hcut, hmsgs, flushWrites]
    rw [seriesBlocks, List.flatten_cons, hblock, hmsgs]
    exact List.Forall₂.cons ⟨_, rfl⟩ (ih msgs)

/-- One write per series, away from a failing conversion: with
`ChunkSize = 0`, on a stream whose conversions do not fail, the
writes are those made for the statements one by one, and the writes for a
statement whose first series is not in error are, in source order, one write
per series: one result with one entry of that series which holds the values of
all its rows and is not flagged as partial. -/
theorem ChunkedEmitter.emit_unbounded_one_write_per_series (e : ChunkedEmitter)
    (w : ResponseWriter) (results : List ResultSet) (h0 : e.ChunkSize = 0)
    (hconv : NoPanic e.Epoch results) :
    ChunkedEmitter.Emit e w results
        = .returned ⟨w.written ++ (results.map (ChunkedEmitter.writesOf e)).flatten⟩ ∧
      ∀ stmt ∈ results, ∀ s0 more, stmt.SeriesCh = s0 :: more → s0.Err = none →
        List.Forall₂
          (fun ser resp => ∃ rflag,
            resp = ⟨[{ StatementID := stmt.ID, Messages := stmt.Messages, Err := none,
                       Partial := rflag,
                       Series := [{ Name := ser.Name, Tags := ser.Tags.KeyValues,
                                    Columns := ser.Columns,
                                    Values := ser.RowCh.map (emittedValues e.Epoch),
                                    Partial := false }] }]⟩)
          stmt.SeriesCh (ChunkedEmitter.writesOf e stmt) := by
  refine ⟨ChunkedEmitter.emit_by_statement e w results hconv, ?_⟩
  intro stmt hstmt s0 more hs herr
  have hw : ChunkedEmitter.writesOf e stmt
      = (seriesBlocks e stmt stmt.Messages stmt.SeriesCh).flatten := by
    unfold ChunkedEmitter.writesOf
    rw [ChunkedEmitter.emit_single e stmt (hconv stmt hstmt)]
    simp [statementWrites, hs, herr]
  rw [hw]
  refine (seriesBlocks_unbounded e (by omega) stmt stmt.SeriesCh stmt.Messages).imp ?_
  rintro ser resp ⟨rflag, rfl⟩
  exact ⟨rflag, rfl⟩

/-- Instance of `ChunkedEmitter.emit_unbounded_one_write_per_series`: statement 0 of the stream of `emitter_test.go` with
`ChunkSize = 0`. -/
theorem ChunkedEmitter.emit_unbounded_one_write_per_series_witness :
    NoPanic "" EmitTestResults ∧
    List.Forall₂
      (fun ser resp => ∃ rflag,
        resp = ⟨[{ StatementID := testStatement0.ID, Messages := testStatement0.Messages,
                   Err := none, Partial := rflag,
                   Series := [{ Name := ser.Name, Tags := ser.Tags.KeyValues,
                                Columns := ser.Columns,
                                Values := ser.RowCh.map (emittedValues ""),
                                Partial := false }] }]⟩)
      testStatement0.SeriesCh
      (ChunkedEmitter.writesOf { ChunkSize := 0, Epoch := "" } testStatement0) :=
  ⟨by decide,
   (ChunkedEmitter.emit_unbounded_one_write_per_series { ChunkSize := 0, Epoch := "" } ⟨[]⟩
      EmitTestResults rfl (by decide)).2 testStatement0 (by decide) _ _ rfl rfl⟩

/-- The conversion does not read the error of the row. -/
theorem convertToEpoch_clearErr (epoch : String) (row : Row) :
    convertToEpoch epoch row.clearErr = (convertToEpoch epoch row).map Row.clearErr := by
  obtain ⟨vals, err⟩ := row
  by_cases he : epoch = ""
  · simp [convertToEpoch, he]
  · cases vals with
    | nil => simp [convertToEpoch, he, epochConverter, Row.clearErr]
    | cons v rest =>
      cases v <;> simp [convertToEpoch, he, epochConverter, Row.clearErr]

/-- The chunked row loop does not read the errors of the rows. -/
theorem ChunkedEmitter.rowLoop_clearErr (e : ChunkedEmitter) (result result1 : ResultSet)
    (series series1 : Series)
    (hf : ∀ st, ChunkedEmitter.flushResult result series st
      = ChunkedEmitter.flushResult result1 series1 st)
    (rs : List Row) :
    ∀ (st : ChunkState),
      ChunkedEmitter.rowLoop e result series st rs
        = ChunkedEmitter.rowLoop e result1 series1 st (rs.map Row.clearErr) := by
  induction rs with
  | nil => intro st; simp [ChunkedEmitter.rowLoop]
  | cons row rest ih =>
    intro st
    rw [List.map_cons, ChunkedEmitter.rowLoop, ChunkedEmitter.rowLoop,
      convertToEpoch_clearErr]
    cases hrow : convertToEpoch e.Epoch row with
    | none => simp
    | some row1 =>
      simp only [Option.map_some']
      by_cases hc : e.ChunkSize > 0 ∧ (st.values.length : Int) ≥ e.ChunkSize
      · rw [if_pos hc, if_pos hc, ih, hf]
        rfl
      · rw [if_neg hc, if_neg hc, ih]
        rfl

/-- The chunked series loop does not read the errors of the rows. -/
theorem ChunkedEmitter.seriesLoop_clearErr (e : ChunkedEmitter) (result result1 : ResultSet)
    (hid : result.ID = result1.ID) (sers : List Series) :
    ∀ (msgs : List Message) (w : ResponseWriter),
      ChunkedEmitter.seriesLoop e result msgs w sers
        = ChunkedEmitter.seriesLoop e result1 msgs w (sers.map Series.clearRowErrs) := by
  induction sers with
  | nil => intro msgs w; simp [ChunkedEmitter.seriesLoop]
  | cons ser more ih =>
    intro msgs w
    have hf : ∀ st, ChunkedEmitter.flushResult result ser st
        = ChunkedEmitter.flushResult result1 ser.clearRowErrs st := by
      intro st
      simp [ChunkedEmitter.flushResult, hid, Series.clearRowErrs]
    have hl : ∀ st, ChunkedEmitter.lastResult result ser st
        = ChunkedEmitter.lastResult result1 ser.clearRowErrs st := by
      intro st
      simp [ChunkedEmitter.lastResult, hid, Series.clearRowErrs]
    rw [List.map_cons, ChunkedEmitter.seriesLoop, ChunkedEmitter.seriesLoop,
      ChunkedEmitter.rowLoop_clearErr e result result1 ser ser.clearRowErrs hf]
    have hrows : ser.clearRowErrs.RowCh = ser.RowCh.map Row.clearErr := rfl
    rw [hrows]
    cases ChunkedEmitter.rowLoop e result1 ser.clearRowErrs
        { messages := msgs, values := [], w := w } (ser.RowCh.map Row.clearErr) with
    | error w1 => rfl
    | ok st =>
      cases more with
      | nil => simp [hl]
      | cons next more1 =>
        simp only [List.map_cons, hl]
        exact ih _ _

/-- The chunked statement loop does not read the errors of the rows. -/
theorem ChunkedEmitter.resultsLoop_clearErr (e : ChunkedEmitter) (results : List ResultSet) :
    ∀ (w : ResponseWriter),
      ChunkedEmitter.resultsLoop e w results
        = ChunkedEmitter.resultsLoop e w (results.map ResultSet.clearRowErrs) := by
  induction results with
  | nil => intro w; simp [ChunkedEmitter.resultsLoop]
  | cons stmt rest ih =>
    intro w
    rw [List.map_cons, ChunkedEmitter.resultsLoop, ChunkedEmitter.resultsLoop]
    cases hs : stmt.SeriesCh with
    | nil =>
      simp only [ResultSet.clearRowErrs, hs, List.map_nil]
      exact ih _
    | cons ser more =>
      simp only [ResultSet.clearRowErrs, hs, List.map_cons]
      have herr : ser.clearRowErrs.Err = ser.Err := rfl
      rw [herr]
      by_cases he : ser.Err ≠ none
      · rw [if_pos he, if_pos he]
        exact ih _
      · rw [if_neg he, if_neg he]
        have hloop := ChunkedEmitter.seriesLoop_clearErr e stmt
          { stmt with SeriesCh := ser.clearRowErrs :: more.map Series.clearRowErrs } rfl
          (ser :: more) stmt.Messages w
        rw [List.map_cons] at hloop
        rw [hloop]
        cases ChunkedEmitter.seriesLoop e
            { stmt with SeriesCh := ser.clearRowErrs :: more.map Series.clearRowErrs }
            stmt.Messages w (ser.clearRowErrs :: more.map Series.clearRowErrs) with
        | returned w1 => exact ih _
        | panicked w1 => rfl

/-- The block written for a series carries the values of all its rows, in
results without error. -/
theorem seriesBlock_carries (e : ChunkedEmitter) (stmt : ResultSet)
    (msgs : List Message) (ser : Series) (hasNext : Bool) :
    CarriesRows e stmt ser (seriesBlock e stmt msgs ser hasNext) := by
  refine ⟨(cut e.ChunkSize [] (ser.RowCh.map (emittedValues e.Epoch))).1 ++
    [(cut e.ChunkSize [] (ser.RowCh.map (emittedValues e.Epoch))).2], ?_, ?_⟩
  · refine List.rel_append ((flushWrites_forall₂ stmt ser _ msgs).imp ?_)
      (List.Forall₂.cons ⟨_, _, _, rfl⟩ List.Forall₂.nil)
    rintro resp piece ⟨m, rfl⟩
    exact ⟨m, true, true, rfl⟩
  · have := cut_flatten e.ChunkSize (ser.RowCh.map (emittedValues e.Epoch)) []
    simpa using this

/-- C20: `ChunkedEmitter.Emit` does not read the error of a row: a run on a
stream ends as the run on the same stream with the errors of all rows removed.
When no conversion fails, the writes for a statement whose first series is not
in error are, series by series, writes of results without error whose entries
hold in order the values of all rows of the series, those of the rows that
carry an error included. -/
theorem ChunkedEmitter.emit_ignores_row_errors (e : ChunkedEmitter) (w : ResponseWriter)
    (results : List ResultSet) :
    ChunkedEmitter.Emit e w results
        = ChunkedEmitter.Emit e w (results.map ResultSet.clearRowErrs) ∧
      (NoPanic e.Epoch results →
        ChunkedEmitter.Emit e w results
            = .returned ⟨w.written ++ (results.map (ChunkedEmitter.writesOf e)).flatten⟩ ∧
          ∀ stmt ∈ results, ∀ s0 more, stmt.SeriesCh = s0 :: more → s0.Err = none →
            ∃ blocks : List (List Response),
              ChunkedEmitter.writesOf e stmt = blocks.flatten ∧
              List.Forall₂ (CarriesRows e stmt) stmt.SeriesCh blocks) := by
  refine ⟨ChunkedEmitter.resultsLoop_clearErr e results w, ?_⟩
  intro hconv
  refine ⟨ChunkedEmitter.emit_by_statement e w results hconv, ?_⟩
  intro stmt hstmt s0 more hs herr
  refine ⟨seriesBlocks e stmt stmt.Messages stmt.SeriesCh, ?_, ?_⟩
  · unfold ChunkedEmitter.writesOf
    rw [ChunkedEmitter.emit_single e stmt (hconv stmt hstmt)]
    simp [statementWrites, hs, herr]
  · refine (seriesBlocks_forall₂ e stmt stmt.SeriesCh stmt.Messages).imp ?_
    rintro ser block ⟨m, hasNext, rfl⟩
    exact seriesBlock_carries e stmt m ser hasNext

/-- Witness of C20: a series whose second row of three carries an error, with
`ChunkSize = 2`: the row is written in the first chunk. -/
theorem ChunkedEmitter.emit_ignores_row_errors_witness :
    ChunkedEmitter.Emit { ChunkSize := 2, Epoch := "" } ⟨[]⟩ [rowErrorStatement]
      = .returned ⟨[
          ⟨[{ StatementID := 0, Messages := [], Err := none, Partial := true,
              Series := [{ Name := "cpu", Tags := [("host", "server01")],
                           Columns := ["time", "value"],
                           Values := [[Value.time 0, Value.float 2],
                                      [Value.time 10000000000, Value.float 5]],
                           Partial := true }] }]⟩,
          ⟨[{ StatementID := 0, Messages := [], Err := none, Partial := false,
              Series := [{ Name := "cpu", Tags := [("host", "server01")],
                           Columns := ["time", "value"],
                           Values := [[Value.time 20000000000, Value.float 7]],
                           Partial := false }] }]⟩]⟩ :=
  (ChunkedEmitter.emit_ignores_row_errors { ChunkSize := 2, Epoch := "" } ⟨[]⟩
    [rowErrorStatement]).1.trans (by decide)

/-! ## The chunked emitter against the monolithic emitter -/

theorem writtenTriples_append (a b : List Response) :
    writtenTriples (a ++ b) = writtenTriples a ++ writtenTriples b := by
  simp [writtenTriples]

theorem writtenTriples_flatten (bs : List (List Response)) :
    writtenTriples bs.flatten = (bs.map writtenTriples).flatten := by
  induction bs with
  | nil => rfl
  | cons b rest ih =>
    rw [List.flatten_cons, writtenTriples_append, ih, List.map_cons, List.flatten_cons]

theorem chunkResponse_triples (stmt : ResultSet) (ser : Series) (msgs : List Message)
    (piece : List (List Value)) (sflag rflag : Bool) :
    Response.triples (chunkResponse stmt ser msgs piece sflag rflag)
      = piece.map fun v => (stmt.ID, ser.Name, v) := by
  simp [Response.triples, Result.triples, chunkResponse, Series.entry]

/-- The triples read off the flushing writes are those of the pieces. -/
theorem flushWrites_triples (stmt : ResultSet) (ser : Series) (ps : List (List (List Value))) :
    ∀ (msgs : List Message),
      writtenTriples (flushWrites stmt ser msgs ps)
        = ps.flatten.map fun v => (stmt.ID, ser.Name, v) := by
  induction ps with
  | nil => intro msgs; rfl
  | cons p rest ih =>
    intro msgs
    have hcons : writtenTriples
        (chunkResponse stmt ser msgs p true true :: flushWrites stmt ser [] rest)
        = Response.triples (chunkResponse stmt ser msgs p true true)
          ++ writtenTriples (flushWrites stmt ser [] rest) := by
      simp [writtenTriples]
    rw [flushWrites, hcons, ih, chunkResponse_triples, List.flatten_cons, List.map_append]

/-- The triples read off the block of a series are those of its rows. -/
theorem seriesBlock_triples (e : ChunkedEmitter) (stmt : ResultSet) (msgs : List Message)
    (ser : Series) (hasNext : Bool) :
    writtenTriples (seriesBlock e stmt msgs ser hasNext)
      = (ser.RowCh.map (emittedValues e.Epoch)).map fun v => (stmt.ID, ser.Name, v) := by
  have hcut := cut_flatten e.ChunkSize (ser.RowCh.map (emittedValues e.Epoch)) []
  rw [List.nil_append] at hcut
  have hlast : ∀ (m : List Message) (piece : List (List Value)),
      writtenTriples [chunkResponse stmt ser m piece false hasNext]
        = piece.map fun v => (stmt.ID, ser.Name, v) := by
    intro m piece
    simp [writtenTriples, chunkResponse_triples]
  rw [seriesBlock, writtenTriples_append, flushWrites_triples, hlast, ← List.map_append, hcut]

/-- The triples read off the blocks of a run of series. -/
theorem seriesBlocks_triples (e : ChunkedEmitter) (stmt : ResultSet) (sers : List Series) :
    ∀ (msgs : List Message),
      writtenTriples (seriesBlocks e stmt msgs sers).flatten
        = (sers.map fun ser =>
            (ser.RowCh.map (emittedValues e.Epoch)).map fun v =>
              (stmt.ID, ser.Name, v)).flatten := by
  induction sers with
  | nil => intro msgs; rfl
  | cons ser more ih =>
    intro msgs
    rw [seriesBlocks, List.flatten_cons, writtenTriples_append, seriesBlock_triples, ih,
      List.map_cons, List.flatten_cons]

/-- The triples read off the writes of a statement whose first series is not
in error are those read off its result rendered in full. -/
theorem statementWrites_triples (e : ChunkedEmitter) (stmt : ResultSet)
    (h : ∀ ser ∈ stmt.SeriesCh, ser.Err = none) :
    writtenTriples (statementWrites e stmt)
      = Result.triples (ResultSet.fullResult e.Epoch stmt) := by
  have hfull : Result.triples (ResultSet.fullResult e.Epoch stmt)
      = (stmt.SeriesCh.map fun ser =>
          (ser.RowCh.map (emittedValues e.Epoch)).map fun v =>
            (stmt.ID, ser.Name, v)).flatten := by
    simp [Result.triples, ResultSet.fullResult, Series.fullEntry, Series.entry,
      Function.comp_def]
  rw [hfull]
  cases hs : stmt.SeriesCh with
  | nil => simp [statementWrites, hs, writtenTriples, Response.triples, Result.triples]
  | cons s0 more =>
    have herr : s0.Err = none := h s0 (by simp [hs])
    have hw : statementWrites e stmt
        = (seriesBlocks e stmt stmt.Messages (s0 :: more)).flatten := by
      simp [statementWrites, hs, herr]
    rw [hw, seriesBlocks_triples]

/-- C19: on an error-free stream, for every `ChunkSize`, with `Epoch = ""`, the
(statement ID, series name, row values) triples read off the writes of
`ChunkedEmitter.Emit` in write order are those read off the writes of
`Emitter.Emit` with `MaxRowLimit = 0`. -/
theorem ChunkedEmitter.emit_refines_emitter (c : Int) (w : ResponseWriter)
    (results : List ResultSet) (h : ErrorFree results) :
    writtenTriples
        (ChunkedEmitter.Emit { ChunkSize := c, Epoch := "" } w results).writer.written
      = writtenTriples
        (Emitter.Emit { MaxRowLimit := 0, Epoch := "" } w results).writer.written := by
  have hmono := Emitter.resultsLoop_full { MaxRowLimit := 0, Epoch := "" } results ⟨[]⟩
    (fun stmt hstmt => ⟨(h stmt hstmt).1, fun ser hser =>
      ⟨((h stmt hstmt).2 ser hser).1,
       fun row hrow => ⟨((h stmt hstmt).2 ser hser).2 row hrow, Or.inl rfl⟩,
       by simp⟩⟩)
  have hchunk := ChunkedEmitter.emit_eq { ChunkSize := c, Epoch := "" } w results
    (fun _ _ _ _ _ _ => Or.inl rfl)
  have hstmts : ∀ stmts : List ResultSet, (∀ stmt ∈ stmts, ∀ ser ∈ stmt.SeriesCh, ser.Err = none) →
      writtenTriples (stmts.map (statementWrites { ChunkSize := c, Epoch := "" })).flatten
        = Response.triples ⟨stmts.map (ResultSet.fullResult "")⟩ := by
    intro stmts
    induction stmts with
    | nil => intro _; rfl
    | cons stmt rest ih =>
      intro hs
      rw [List.map_cons, List.flatten_cons, writtenTriples_append,
        statementWrites_triples _ stmt (hs stmt (List.mem_cons_self _ _)),
        ih (fun x hx => hs x (List.mem_cons_of_mem _ hx))]
      simp [Response.triples]
  unfold Emitter.Emit
  rw [hchunk, hmono]
  simp only [Outcome.writer, ResponseWriter.WriteResponse, List.nil_append,
    writtenTriples_append]
  rw [hstmts results (fun stmt hstmt ser hser => ((h stmt hstmt).2 ser hser).1)]
  simp [writtenTriples]

/-- Witness of C19: the stream of `emitter_test.go` with `ChunkSize = 2`. -/
theorem ChunkedEmitter.emit_refines_emitter_witness :
    ErrorFree EmitTestResults ∧
    writtenTriples
        (ChunkedEmitter.Emit { ChunkSize := 2, Epoch := "" } ⟨[]⟩ EmitTestResults).writer.written
      = writtenTriples
        (Emitter.Emit { MaxRowLimit := 0, Epoch := "" } ⟨[]⟩ EmitTestResults).writer.written :=
  ⟨by decide, ChunkedEmitter.emit_refines_emitter 2 ⟨[]⟩ EmitTestResults (by decide)⟩

/-! ## The claims that the failing conversion breaks

Each run below has an epoch unit and meets a row without values: the conversion
fails there, as in `epochConverter_fails_on_empty_row`, and the run ends in a
panic. -/

/-- C3, the code at a failing input: with `ChunkSize = 1` and unit `s`, on a
series whose third row has no values, the first row is flushed when the second
arrives, in a write flagged as partial at both levels; the run then fails on
the third row, and no later write follows for the series or the statement. -/
theorem ChunkedEmitter.emit_partial_then_panic :
    ChunkedEmitter.Emit { ChunkSize := 1, Epoch := "s" } ⟨[]⟩ [valuelessRowStatement]
      = .panicked ⟨[
          ⟨[{ StatementID := 2, Messages := [], Err := none, Partial := true,
              Series := [{ Name := "cpu", Tags := [("host", "server01")],
                           Columns := ["time", "value"],
                           Values := [[Value.int 0, Value.float 2]],
                           Partial := true }] }]⟩]⟩ := by
  decide

/-- C11, the code at a failing input: with unit `s`, a statement with a row in
error followed by a statement with a row without values: the run fails before
the single write, so no result carries the error of the row. -/
theorem Emitter.emit_row_error_then_panic :
    Emitter.Emit { MaxRowLimit := 0, Epoch := "s" } ⟨[]⟩
        [rowErrorInSecondSeries, valuelessRowStatement]
      = .panicked ⟨[]⟩ := by
  decide

/-- C12, the code at a failing input: with `MaxRowLimit = 0` and unit `s`, on a
statement with a row without values followed by a statement without series, the
run fails and no response is written. -/
theorem Emitter.emit_no_response_on_panic :
    Emitter.Emit { MaxRowLimit := 0, Epoch := "s" } ⟨[]⟩
        [valuelessRowStatement, noSeriesStatement]
      = .panicked ⟨[]⟩ := by
  decide

/-- C13, the code at a failing input: with `ChunkSize = 0` and unit `s`, a
statement without series and without error that follows a statement with a row
without values is not reached: the run fails and no write is made for it. -/
theorem ChunkedEmitter.emit_no_series_not_reached :
    ChunkedEmitter.Emit { ChunkSize := 0, Epoch := "s" } ⟨[]⟩
        [valuelessRowStatement, noSeriesStatement]
      = .panicked ⟨[]⟩ := by
  decide

/-- C15, the code at a failing input: with `ChunkSize = 0` and unit `s`, a
statement whose first series is in error and that follows a statement with a
row without values is not reached: the run fails and no write is made for
it. -/
theorem ChunkedEmitter.emit_first_series_error_not_reached :
    ChunkedEmitter.Emit { ChunkSize := 0, Epoch := "s" } ⟨[]⟩
        [valuelessRowStatement, firstSeriesErrorStatement]
      = .panicked ⟨[]⟩ := by
  decide

/-- C17, the code at a failing input: with `ChunkSize = 0` and unit `s`, on a
statement whose only series is not in error and has a third row without
values, the run fails on that row before the write for the series: no write is
made. -/
theorem ChunkedEmitter.emit_unbounded_panics :
    ChunkedEmitter.Emit { ChunkSize := 0, Epoch := "s" } ⟨[]⟩ [valuelessRowStatement]
      = .panicked ⟨[]⟩ := by
  decide

end httpd
